import Mathlib

/-!
Verification development for a Remind / iCalendar translation library
(remind.py).  Python strings are modelled as lists of characters, Python
dates as proleptic-Gregorian day numbers, datetimes as day number plus
minute-of-day plus a fixed-offset time zone, and timedeltas as seconds.
Fallible Python operations (ValueError, IndexError) are modelled with
Option results.
-/

namespace PyRemind

/-- Python strings are modelled as lists of characters. -/
abbrev PyStr := List Char

/-- Character list of a Lean string literal. -/
def strL (s : String) : PyStr := s.data

/-- Python str.split(sep) for a single-character separator. -/
def splitChar (c : Char) : PyStr → List PyStr
  | [] => [[]]
  | a :: s =>
    if a = c then [] :: splitChar c s
    else
      match splitChar c s with
      | [] => [[a]]
      | p :: ps => (a :: p) :: ps

/-- Python sep.join(parts). -/
def joinSep (sep : PyStr) : List PyStr → PyStr
  | [] => []
  | [p] => p
  | p :: q :: ps => p ++ sep ++ joinSep sep (q :: ps)

/-- Python substring test (pat in s). -/
def hasSub (pat : PyStr) : PyStr → Bool
  | [] => pat.isPrefixOf []
  | c :: s => pat.isPrefixOf (c :: s) || hasSub pat s

def replaceAllAux (pat rep : PyStr) : Nat → PyStr → PyStr
  | 0, s => s
  | fuel + 1, s =>
    match pat, s with
    | _, [] => []
    | [], s => s
    | p :: pr, c :: s' =>
      if (p :: pr).isPrefixOf (c :: s') then
        rep ++ replaceAllAux (p :: pr) rep fuel (List.drop pr.length s')
      else
        c :: replaceAllAux (p :: pr) rep fuel s'

/-- Python str.replace(pat, rep): all non-overlapping occurrences, leftmost
    first.  The fuel only bounds the recursion depth; it starts at the string
    length, which never runs out since every step consumes at least one
    character. -/
def replaceAll (pat rep : PyStr) (s : PyStr) : PyStr := replaceAllAux pat rep s.length s

theorem replaceAllAux_fuel (pat rep : PyStr) :
    ∀ fuel fuel' s, s.length ≤ fuel → s.length ≤ fuel' →
      replaceAllAux pat rep fuel s = replaceAllAux pat rep fuel' s := by
  intro fuel
  induction fuel with
  | zero =>
    intro fuel' s hs _
    have h0 : s = [] := by
      cases s with
      | nil => rfl
      | cons a t => simp at hs
    subst h0
    cases fuel' with
    | zero => rfl
    | succ g =>
      cases pat <;> rfl
  | succ f ih =>
    intro fuel' s hs hs'
    cases s with
    | nil =>
      cases fuel' with
      | zero => cases pat <;> rfl
      | succ g => cases pat <;> rfl
    | cons c s' =>
      cases fuel' with
      | zero => simp at hs'
      | succ g =>
        cases pat with
        | nil => rfl
        | cons p pr =>
          simp only [List.length_cons] at hs hs'
          show (if (p :: pr).isPrefixOf (c :: s') then
              rep ++ replaceAllAux (p :: pr) rep f (List.drop pr.length s')
            else c :: replaceAllAux (p :: pr) rep f s') =
            (if (p :: pr).isPrefixOf (c :: s') then
              rep ++ replaceAllAux (p :: pr) rep g (List.drop pr.length s')
            else c :: replaceAllAux (p :: pr) rep g s')
          by_cases hp : (p :: pr).isPrefixOf (c :: s')
          · rw [if_pos hp, if_pos hp,
              ih g (List.drop pr.length s') (by simp only [List.length_drop]; omega)
                (by simp only [List.length_drop]; omega)]
          · rw [if_neg hp, if_neg hp, ih g s' (by omega) (by omega)]

theorem replaceAll_nil (pat rep : PyStr) : replaceAll pat rep [] = [] := by
  cases pat <;> rfl

theorem replaceAll_cons_pos (p : Char) (pr rep : PyStr) (c : Char) (s' : PyStr)
    (h : (p :: pr).isPrefixOf (c :: s') = true) :
    replaceAll (p :: pr) rep (c :: s')
      = rep ++ replaceAll (p :: pr) rep (List.drop pr.length s') := by
  show replaceAllAux (p :: pr) rep (s'.length + 1) (c :: s') = _
  show (if (p :: pr).isPrefixOf (c :: s') then
      rep ++ replaceAllAux (p :: pr) rep s'.length (List.drop pr.length s')
    else c :: replaceAllAux (p :: pr) rep s'.length s') = _
  rw [if_pos h]
  unfold replaceAll
  rw [replaceAllAux_fuel (p :: pr) rep s'.length (List.drop pr.length s').length
    (List.drop pr.length s') (by simp) le_rfl]

theorem replaceAll_cons_neg (p : Char) (pr rep : PyStr) (c : Char) (s' : PyStr)
    (h : (p :: pr).isPrefixOf (c :: s') = false) :
    replaceAll (p :: pr) rep (c :: s') = c :: replaceAll (p :: pr) rep s' := by
  show replaceAllAux (p :: pr) rep (s'.length + 1) (c :: s') = _
  show (if (p :: pr).isPrefixOf (c :: s') then
      rep ++ replaceAllAux (p :: pr) rep s'.length (List.drop pr.length s')
    else c :: replaceAllAux (p :: pr) rep s'.length s') = _
  rw [if_neg (by simp [h])]
  rfl

/-- Occurrence of pat at position i of s. -/
def occursAt (pat s : PyStr) (i : Nat) : Bool := pat.isPrefixOf (List.drop i s)

/-- Position of the first occurrence of pat in s (str.find, as an Option). -/
def firstOcc (pat : PyStr) : PyStr → Option Nat
  | [] => if pat.isPrefixOf ([] : PyStr) then some 0 else none
  | c :: s => if pat.isPrefixOf (c :: s) then some 0 else (firstOcc pat s).map (· + 1)

def lastOccAux (pat s : PyStr) : Nat → Option Nat
  | 0 => if occursAt pat s 0 then some 0 else none
  | i + 1 => if occursAt pat s (i + 1) then some (i + 1) else lastOccAux pat s i

/-- Position of the last occurrence of pat in s (str.rfind, as an Option). -/
def lastOcc (pat s : PyStr) : Option Nat := lastOccAux pat s s.length

def pySpace (c : Char) : Bool :=
  c = ' ' || c = '\t' || c = '\n' || c = '\x0b' || c = '\x0c' || c = '\r'

/-- Python str.strip(). -/
def pyStrip (s : PyStr) : PyStr :=
  ((s.dropWhile pySpace).reverse.dropWhile pySpace).reverse

def digitVal (c : Char) : Option Nat :=
  if '0' ≤ c ∧ c ≤ '9' then some (c.toNat - '0'.toNat) else none

def digitsValAux : Nat → PyStr → Option Nat
  | acc, [] => some acc
  | acc, c :: s =>
    match digitVal c with
    | some d => digitsValAux (10 * acc + d) s
    | none => none

/-- The tail of a CPython decimal digit group, after its first digit: further
    digits, with single underscores allowed only between two digits. -/
def digitsValU : Nat → PyStr → Option Nat
  | acc, [] => some acc
  | acc, c :: s =>
    if c = '_' then
      match s with
      | [] => none
      | c2 :: s' =>
        match digitVal c2 with
        | some d => digitsValU (10 * acc + d) s'
        | none => none
    else
      match digitVal c with
      | some d => digitsValU (10 * acc + d) s
      | none => none

/-- A CPython decimal digit group: starts and ends with a digit, single
    underscores allowed between digits ('1_2' is 12; '_1', '1_', '1__2'
    are rejected). -/
def digitsGroup : PyStr → Option Nat
  | [] => none
  | c :: s =>
    match digitVal c with
    | some d => digitsValU d s
    | none => none

def pyIntCore : PyStr → Option Int
  | [] => none
  | c :: ds =>
    if c = '+' then (digitsGroup ds).map Int.ofNat
    else if c = '-' then (digitsGroup ds).map (fun n => -(Int.ofNat n))
    else (digitsGroup (c :: ds)).map Int.ofNat

/-- Python int(text) for base 10: optional surrounding whitespace, optional
    sign, then an underscore-grouped digit run.  This matches CPython's
    int() exactly on ASCII arguments (int() additionally accepts non-ASCII
    decimal digits and non-ASCII whitespace, which this program never
    produces). -/
def pyInt (s : PyStr) : Option Int := pyIntCore (pyStrip s)

def digitChar (n : Nat) : Char := Char.ofNat ('0'.toNat + n % 10)

def natDigitsAux : Nat → Nat → PyStr
  | 0, _ => []
  | fuel + 1, n => if n = 0 then [] else natDigitsAux fuel (n / 10) ++ [digitChar (n % 10)]

/-- Decimal digits of a natural number (Python str(n)). -/
def natToStr (n : Nat) : PyStr := if n = 0 then ['0'] else natDigitsAux n n

/-- Python str(i) for integers. -/
def intToStr (i : Int) : PyStr :=
  if i < 0 then '-' :: natToStr i.natAbs else natToStr i.toNat

/-- Python list indexing with a nonnegative index (IndexError as none). -/
def pyAt {α : Type} (l : List α) (i : Nat) : Option α := l.get? i

/-- Python list indexing with a possibly negative index. -/
def pyGetItem {α : Type} (l : List α) (i : Int) : Option α :=
  let j := if i < 0 then i + l.length else i
  if 0 ≤ j ∧ j < l.length then l.get? j.toNat else none

/-- Python del l[i] with a possibly negative index. -/
def pyDelItem {α : Type} (l : List α) (i : Int) : List α :=
  let j := if i < 0 then i + l.length else i
  l.eraseIdx j.toNat

/-- Python l[i] = a with a possibly negative index. -/
def pySetItem {α : Type} (l : List α) (i : Int) (a : α) : List α :=
  let j := if i < 0 then i + l.length else i
  l.set j.toNat a

/-! ## UTF-8 and SHA-1 (hashlib.sha1 over text.encode('utf-8')) -/

/-- UTF-8 encoding of one character, as byte values. -/
def utf8Bytes (c : Char) : List Nat :=
  let n := c.toNat
  if n < 0x80 then [n]
  else if n < 0x800 then [0xC0 + n / 0x40, 0x80 + n % 0x40]
  else if n < 0x10000 then [0xE0 + n / 0x1000, 0x80 + n / 0x40 % 0x40, 0x80 + n % 0x40]
  else [0xF0 + n / 0x40000, 0x80 + n / 0x1000 % 0x40, 0x80 + n / 0x40 % 0x40, 0x80 + n % 0x40]

/-- Python text.encode('utf-8') as a byte list. -/
def utf8Encode (s : PyStr) : List Nat := (s.map utf8Bytes).flatten

/-- Truncation to a 32-bit word. -/
def w32 (n : Nat) : Nat := n % 4294967296

/-- Left rotation of a 32-bit word. -/
def rotl32 (b n : Nat) : Nat := w32 (w32 n * 2 ^ b) + w32 n / 2 ^ (32 - b)

def sha1F (t b c d : Nat) : Nat :=
  if t < 20 then Nat.lor (Nat.land b c) (Nat.land (Nat.xor b 4294967295) d)
  else if t < 40 then Nat.xor (Nat.xor b c) d
  else if t < 60 then Nat.lor (Nat.lor (Nat.land b c) (Nat.land b d)) (Nat.land c d)
  else Nat.xor (Nat.xor b c) d

def sha1K (t : Nat) : Nat :=
  if t < 20 then 0x5A827999 else if t < 40 then 0x6ED9EBA1
  else if t < 60 then 0x8F1BBCDC else 0xCA62C1D6

/-- Big-endian byte expansion, k bytes. -/
def beBytes (k n : Nat) : List Nat :=
  (List.range k).map (fun i => n / 2 ^ (8 * (k - 1 - i)) % 256)

/-- SHA-1 message padding. -/
def sha1Pad (msg : List Nat) : List Nat :=
  msg ++ [0x80] ++ List.replicate ((119 - msg.length % 64) % 64) 0 ++ beBytes 8 (8 * msg.length)

/-- Split a byte list into 64-byte chunks. -/
def chunks64 : List Nat → List (List Nat)
  | [] => []
  | a :: l => ((a :: l).take 64) :: chunks64 ((a :: l).drop 64)
termination_by l => l.length
decreasing_by simp only [List.drop, List.length_drop, List.length_cons]; omega

def beWord (bs : List Nat) : Nat := bs.foldl (fun a b => 256 * a + b) 0

def chunkWords (chunk : List Nat) : List Nat :=
  (List.range 16).map (fun i => beWord ((chunk.drop (4 * i)).take 4))

/-- SHA-1 message-schedule extension by n further words. -/
def sha1Extend (ws : List Nat) : Nat → List Nat
  | 0 => ws
  | n + 1 =>
    let w := sha1Extend ws n
    w ++ [rotl32 1 (Nat.xor (Nat.xor (w.getD (w.length - 3) 0) (w.getD (w.length - 8) 0))
                    (Nat.xor (w.getD (w.length - 14) 0) (w.getD (w.length - 16) 0)))]

def sha1Step (ws : List Nat) (st : Nat × Nat × Nat × Nat × Nat) (t : Nat) :
    Nat × Nat × Nat × Nat × Nat :=
  match st with
  | (a, b, c, d, e) =>
    (w32 (rotl32 5 a + sha1F t b c d + e + sha1K t + ws.getD t 0), a, rotl32 30 b, c, d)

def sha1Chunk (hs : Nat × Nat × Nat × Nat × Nat) (chunk : List Nat) :
    Nat × Nat × Nat × Nat × Nat :=
  let ws := sha1Extend (chunkWords chunk) 64
  match hs, (List.range 80).foldl (sha1Step ws) hs with
  | (h0, h1, h2, h3, h4), (a, b, c, d, e) =>
    (w32 (h0 + a), w32 (h1 + b), w32 (h2 + c), w32 (h3 + d), w32 (h4 + e))

/-- SHA-1 digest of a byte list, as a 160-bit number. -/
def sha1Nat (msg : List Nat) : Nat :=
  match (chunks64 (sha1Pad msg)).foldl sha1Chunk
      (0x67452301, 0xEFCDAB89, 0x98BADCFE, 0x10325476, 0xC3D2E1F0) with
  | (h0, h1, h2, h3, h4) => (((h0 * 2 ^ 32 + h1) * 2 ^ 32 + h2) * 2 ^ 32 + h3) * 2 ^ 32 + h4

def hexChar (n : Nat) : Char :=
  if n < 10 then Char.ofNat ('0'.toNat + n) else Char.ofNat ('a'.toNat + (n - 10))

/-- Forty-character lowercase hex rendering of a 160-bit number. -/
def hexDigest (h : Nat) : PyStr :=
  (List.range 40).map (fun i => hexChar (h / 2 ^ (4 * (39 - i)) % 16))

/-- sha1(text.encode('utf-8')).hexdigest(). -/
def sha1hex (s : PyStr) : PyStr := hexDigest (sha1Nat (utf8Encode s))

/-! ## Dates, datetimes, time zones -/

/-- Day number of a proleptic-Gregorian civil date (days since 1970-01-01). -/
def daysFromCivil (y m d : Int) : Int :=
  let y' := if m ≤ 2 then y - 1 else y
  let era := Int.fdiv y' 400
  let yoe := y' - era * 400
  let mp := Int.emod (m + 9) 12
  let doy := Int.fdiv (153 * mp + 2) 5 + d - 1
  let doe := yoe * 365 + Int.fdiv yoe 4 - Int.fdiv yoe 100 + doy
  era * 146097 + doe - 719468

/-- Civil date (year, month, day) of a day number. -/
def civilFromDays (z0 : Int) : Int × Int × Int :=
  let z := z0 + 719468
  let era := Int.fdiv z 146097
  let doe := z - era * 146097
  let yoe := Int.fdiv (doe - Int.fdiv doe 1460 + Int.fdiv doe 36524 - Int.fdiv doe 146096) 365
  let y := yoe + era * 400
  let doy := doe - (365 * yoe + Int.fdiv yoe 4 - Int.fdiv yoe 100)
  let mp := Int.fdiv (5 * doy + 2) 153
  let d := doy - Int.fdiv (153 * mp + 2) 5 + 1
  let m := if mp < 10 then mp + 3 else mp - 9
  (if m ≤ 2 then y + 1 else y, m, d)

def monthAbbr (m : Int) : PyStr :=
  if m = 1 then strL "Jan" else if m = 2 then strL "Feb" else if m = 3 then strL "Mar"
  else if m = 4 then strL "Apr" else if m = 5 then strL "May" else if m = 6 then strL "Jun"
  else if m = 7 then strL "Jul" else if m = 8 then strL "Aug" else if m = 9 then strL "Sep"
  else if m = 10 then strL "Oct" else if m = 11 then strL "Nov" else strL "Dec"

/-- Two-digit zero-padded rendering (strftime %d, %m, %H, %M). -/
def twoDigit (n : Int) : PyStr :=
  if 0 ≤ n ∧ n < 10 then '0' :: natToStr n.toNat else intToStr n

/-- strftime('%b %d %Y') on a day number. -/
def fmtBDY (rd : Int) : PyStr :=
  match civilFromDays rd with
  | (y, m, d) => monthAbbr m ++ [' '] ++ twoDigit d ++ [' '] ++ intToStr y

/-- strftime('%Y-%m-%d') on a day number. -/
def fmtYMD (rd : Int) : PyStr :=
  match civilFromDays rd with
  | (y, m, d) => intToStr y ++ ['-'] ++ twoDigit m ++ ['-'] ++ twoDigit d

/-- Fixed-offset time zone: a zone name and a UTC offset in minutes. -/
structure Tz where
  name : PyStr
  off : Int
deriving DecidableEq

/-- Naive datetimes are modelled as offset zero with an empty zone name. -/
def naiveTz : Tz := ⟨[], 0⟩

structure PyDate where
  rd : Int
deriving DecidableEq

structure PyDateTime where
  rd : Int
  minute : Int
  tz : Tz
deriving DecidableEq

/-- A Python date or timezone-aware datetime value. -/
inductive PyTime where
  | d (x : PyDate)
  | dt (x : PyDateTime)
deriving DecidableEq

/-- Comparison key in minutes: dates at midnight, datetimes as UTC instants.
    (Python raises on mixed date/datetime comparison; only same-kind
    comparisons occur in this program.) -/
def pyKey : PyTime → Int
  | .d x => x.rd * 1440
  | .dt x => x.rd * 1440 + x.minute - x.tz.off

/-- Difference of two dates or datetimes in seconds (timedelta.total_seconds()). -/
def tdSub (a b : PyTime) : Int := 60 * (pyKey a - pyKey b)

/-- timedelta.days attribute of a timedelta given in seconds. -/
def tdDays (secs : Int) : Int := Int.fdiv secs 86400

/-- Adding timedelta(days=n) to a date or datetime. -/
def addDays (n : Int) : PyTime → PyTime
  | .d x => .d ⟨x.rd + n⟩
  | .dt x => .dt ⟨x.rd + n, x.minute, x.tz⟩

def pyLtB (a b : PyTime) : Bool := pyKey a < pyKey b

/-- Python max() over a non-empty list (the empty case raises and is unreached). -/
def pyMax (l : List PyTime) : PyTime :=
  match l with
  | [] => .d ⟨0⟩
  | a :: r => r.foldl (fun acc x => if pyLtB acc x then x else acc) a

/-- Python min() over a non-empty list (the empty case raises and is unreached). -/
def pyMin (l : List PyTime) : PyTime :=
  match l with
  | [] => .d ⟨0⟩
  | a :: r => r.foldl (fun acc x => if pyLtB x acc then x else acc) a

def isDatetime : PyTime → Bool
  | .d _ => false
  | .dt _ => true

/-- The day number of a date, or of a datetime's date part. -/
def dateOf : PyTime → Int
  | .d x => x.rd
  | .dt x => x.rd

def isLeap (y : Int) : Bool :=
  Int.emod y 4 == 0 && (Int.emod y 100 != 0 || Int.emod y 400 == 0)

def daysInMonth (y m : Int) : Int :=
  if m = 2 then (if isLeap y then 29 else 28)
  else if m = 4 ∨ m = 6 ∨ m = 9 ∨ m = 11 then 30 else 31

/-- datetime.date(y, m, d); a ValueError is none. -/
def mkDate (y m d : Int) : Option PyTime :=
  if 1 ≤ y ∧ y ≤ 9999 ∧ 1 ≤ m ∧ m ≤ 12 ∧ 1 ≤ d ∧ d ≤ daysInMonth y m then
    some (.d ⟨daysFromCivil y m d⟩)
  else none

/-- datetime.datetime(y, m, d, hh, mm, tzinfo=tz); a ValueError is none. -/
def mkDateTime (y m d hh mm : Int) (tz : Tz) : Option PyTime :=
  if 1 ≤ y ∧ y ≤ 9999 ∧ 1 ≤ m ∧ m ≤ 12 ∧ 1 ≤ d ∧ d ≤ daysInMonth y m ∧
     0 ≤ hh ∧ hh < 24 ∧ 0 ≤ mm ∧ mm < 60 then
    some (.dt ⟨daysFromCivil y m d, 60 * hh + mm, tz⟩)
  else none

/-- datetime.astimezone(tz) between fixed-offset zones. -/
def astimezone (tz : Tz) (x : PyDateTime) : PyDateTime :=
  let tot := x.rd * 1440 + x.minute - x.tz.off + tz.off
  ⟨Int.fdiv tot 1440, Int.emod tot 1440, tz⟩

/-! ## The translation model (remind.py) -/

/-- Convert from Remind MSG to iCal description (static method _gen_description). -/
def gen_description (text : PyStr) : PyStr :=
  let i : Int := match lastOcc (strL "%\"") text with
    | some k => (k : Int)
    | none => -1
  pyStrip (replaceAll (strL "[\"[\"]") ['[']
    (replaceAll (strL "%_") ['\n'] (List.drop (i + 3).toNat text)))

/-- Generate the iCal uid: line number, sha1 of the source line, host name
    (static method _gen_uid; the fully-qualified domain name is a parameter). -/
def gen_uid (host : PyStr) (lineNumber : PyStr) (text : PyStr) : PyStr :=
  lineNumber ++ ['-'] ++ sha1hex text ++ ['@'] ++ host

/-- Generate a Remind MSG clause list from summary, location, description
    (static method _gen_msg, with the vevent attributes passed explicitly). -/
def gen_msg (label : Option PyStr) (summary : PyStr) (location : Option PyStr)
    (description : Option PyStr) : List PyStr :=
  let msg0 : List PyStr := match label with
    | some l => if l ≠ [] then [l] else []
    | none => []
  let msg1 := msg0 ++ [replaceAll ['['] (strL "[\"[\"]") summary]
  let msg2 := match location with
    | some l => if l ≠ [] then msg1 ++ [strL "at " ++ l] else msg1
    | none => msg1
  match description with
  | some dsc =>
    if dsc ≠ [] then
      [strL "MSG", strL "%\"" ++ joinSep [' '] msg2 ++ strL "%\"",
       replaceAll ['['] (strL "[\"[\"]") (replaceAll ['\n'] (strL "%_") dsc)]
    else [strL "MSG", joinSep [' '] msg2]
  | none => [strL "MSG", joinSep [' '] msg2]

/-- The summary/location split of _parse_remind_line: the message is rsplit
    once on the last ' at ' separator when one occurs. -/
def splitLocation (msg : PyStr) : PyStr × Option PyStr :=
  if hasSub (strL " at ") msg then
    match lastOcc (strL " at ") msg with
    | some i => (msg.take i, some (msg.drop (i + 4)))
    | none => (msg, none)
  else (msg, none)

/-- The description extraction of _parse_remind_line: present exactly when
    the source line contains a percent-quote delimiter. -/
def decodeDescription (text : PyStr) : Option PyStr :=
  if hasSub (strL "%\"") text then some (gen_description text) else none

/-- An event record accumulated by _parse_remind. -/
structure Event where
  dtstart : List PyTime
  duration : Option Int
  msg : PyStr
  location : Option PyStr
  description : Option PyStr
  uid : PyStr
deriving DecidableEq

/-- Parse one record of remind -s output (the space-separated fields) together
    with the original source line text (method _parse_remind_line); any Python
    exception is none. -/
def parse_remind_line (tz : Tz) (host : PyStr) (line : List PyStr) (text : PyStr) :
    Option Event := do
  let f4 ← pyAt line 4
  let dat ← (splitChar '/' f4).mapM pyInt
  let y ← pyAt dat 0
  let mo ← pyAt dat 1
  let dd ← pyAt dat 2
  let f8 ← pyAt line 8
  let lineNo ← pyAt line 2
  let (dtstart, dur, msg) ←
    if f8 ≠ strL "*" then do
      let t ← pyInt f8
      let s ← mkDateTime y mo dd (Int.fdiv t 60) (Int.emod t 60) tz
      let f7 ← pyAt line 7
      let dur ←
        if f7 ≠ strL "*" then do
          let m ← pyInt f7
          pure (some (60 * m))
        else pure (none : Option Int)
      pure (s, dur, joinSep [' '] (line.drop 10))
    else do
      let s ← mkDate y mo dd
      pure (s, (none : Option Int), joinSep [' '] (line.drop 9))
  let (m, loc) := splitLocation msg
  let dsc := decodeDescription text
  pure ⟨[dtstart], dur, m, loc, dsc, gen_uid host lineNo text⟩

/-- A dateutil rrule as stored in a parsed RRULE property. -/
structure DuRRule where
  freq : Nat
  count : Option Nat
  untl : Option PyTime
  byweekday : Option (List Nat)
deriving DecidableEq

/-- dateutil frequency code for DAILY. -/
def duDAILY : Nat := 3

/-- dateutil frequency code for WEEKLY. -/
def duWEEKLY : Nat := 2

/-- An rruleset as reconstructed by vobject from an RRULE property and the
    event's dtstart. -/
structure DuRRuleSet where
  rule : DuRRule
  dtstart : PyTime
deriving DecidableEq

/-- The occurrence list a rruleset enumerates, on the COUNT-based daily and
    plain weekly rule shapes that this program builds and reads back; other
    shapes are not reached by the verified paths and yield the empty list. -/
def ruleInstances (rs : DuRRuleSet) : List PyTime :=
  match rs.rule.byweekday, rs.rule.count with
  | none, some n =>
    if rs.rule.freq = duDAILY then
      (List.range n).map (fun (i : Nat) => addDays (i : Int) rs.dtstart)
    else if rs.rule.freq = duWEEKLY then
      (List.range n).map (fun (i : Nat) => addDays (7 * (i : Int)) rs.dtstart)
    else []
  | _, _ => []

/-- rruleset[-1]: the last enumerated occurrence (an empty enumeration raises
    in Python and is unreached because it is guarded by a truthy count). -/
def lastInstance (rs : DuRRuleSet) : PyTime := (ruleInstances rs).getLast?.getD rs.dtstart

/-- Convert from iCal rdates to Remind trigdate syntax (static method _parse_rdate). -/
def parse_rdate (rdates : List PyTime) : PyStr :=
  strL "SATISFY [" ++
    joinSep (strL "||")
      (rdates.map (fun r => strL "trigdate()=='" ++ fmtYMD (dateOf r) ++ strL "'")) ++
    strL "]"

def weekdayName (d : Nat) : PyStr :=
  if d = 0 then strL "Mon" else if d = 1 then strL "Tue" else if d = 2 then strL "Wed"
  else if d = 3 then strL "Thu" else if d = 4 then strL "Fri" else if d = 5 then strL "Sat"
  else strL "Sun"

/-- Convert from an iCal rrule to Remind recurrence syntax (static method
    _parse_rruleset); the result is a clause list or, for frequencies other
    than daily and weekly, a single trigdate expression string. -/
def parse_rruleset (rs : DuRRuleSet) : Sum (List PyStr) PyStr :=
  if rs.rule.freq = 0 then .inl []
  else
    let bw := rs.rule.byweekday.getD []
    let multi : Bool := bw.length > 1
    if multi || rs.rule.freq == duDAILY || rs.rule.freq == duWEEKLY then
      let rep0 := if multi || rs.rule.freq == duDAILY then [strL "*1"] else [strL "*7"]
      let rep1 :=
        if multi then
          rep0 ++ [strL "SKIP OMIT " ++
            joinSep [' '] (((List.range 7).filter (fun x => !(bw.contains x))).map weekdayName)]
        else rep0
      let rep2 :=
        match rs.rule.untl with
        | some u => rep1 ++ [replaceAll (strL " 0") [' '] (strL "UNTIL " ++ fmtBDY (dateOf u))]
        | none =>
          match rs.rule.count with
          | some n =>
            if n ≠ 0 then
              rep1 ++ [replaceAll (strL " 0") [' '] (strL "UNTIL " ++ fmtBDY (dateOf (lastInstance rs)))]
            else rep1
          | none => rep1
      .inl rep2
    else .inr (parse_rdate (ruleInstances rs))

/-- A VALARM sub-object. -/
structure Valarm where
  trigger : Int
  action : PyStr
  description : PyStr
deriving DecidableEq

/-- A vevent object: optional attributes are Options (hasattr is isSome). -/
structure Vevent where
  dtstart : PyTime
  dtend : Option PyTime
  duration : Option Int
  summary : PyStr
  location : Option PyStr
  description : Option PyStr
  rrule : Option DuRRule
  rdate : Option (List PyTime)
  valarm : Option Valarm
  uid : PyStr
deriving DecidableEq

/-- Checks whether consecutive dates are a weekly distance apart
    (static method _weekly; the empty case raises and is unreached). -/
def weeklyAux : PyTime → List PyTime → Bool
  | _, [] => true
  | prev, x :: l => tdDays (tdSub x prev) == 7 && weeklyAux x l

def weekly (dates : List PyTime) : Bool :=
  match dates with
  | [] => true
  | a :: l => weeklyAux a l

/-- Generate an rdate or rrule from a list of dates and attach it to the
    vevent (static method _gen_dtend_rrule).  The transient dtstart juggling
    around the rdate assignment restores dtstart and has no net effect. -/
def gen_dtend_rrule (dtstarts : List PyTime) (v : Vevent) : Vevent :=
  match dtstarts with
  | [] => v
  | d0 :: _ =>
    if tdDays (tdSub (pyMax dtstarts) (pyMin dtstarts)) = (dtstarts.length : Int) - 1 then
      if isDatetime d0 then
        { v with rrule := some ⟨duDAILY, some dtstarts.length, none, none⟩ }
      else
        { v with dtend := some (addDays 1 (dtstarts.getLast?.getD d0)) }
    else if weekly dtstarts then
      { v with rrule := some ⟨duWEEKLY, some dtstarts.length, none, none⟩ }
    else
      let rset : List PyTime :=
        if isDatetime d0 then
          dtstarts.map (fun x =>
            match x with
            | .dt y => .dt (astimezone ⟨strL "UTC", 0⟩ y)
            | .d y => .d y)
        else dtstarts.map (fun x => .dt ⟨dateOf x, 0, naiveTz⟩)
      let v' := { v with rdate := some rset }
      if !isDatetime d0 then { v' with dtend := some (addDays 1 d0) } else v'

/-- Generate a vevent from the given event record (static method _gen_vevent);
    an empty occurrence list raises and is none. -/
def gen_vevent (e : Event) : Option Vevent := do
  let start ← pyAt e.dtstart 0
  let v0 : Vevent := ⟨start, none, none, e.msg, e.location, e.description, none, none, none, e.uid⟩
  let v1 :=
    if isDatetime start then
      let va : Valarm := ⟨-600, strL "DISPLAY", e.msg⟩
      match e.duration with
      | some dd => { v0 with valarm := some va, duration := some dd }
      | none => { v0 with valarm := some va, dtend := some start }
    else if e.dtstart.length = 1 then { v0 with dtend := some (addDays 1 start) }
    else v0
  pure (if e.dtstart.length > 1 then gen_dtend_rrule e.dtstart v1 else v1)

/-- Unify dtend and duration into the effective duration of the vevent, in
    seconds (static method _event_duration; a zero stored duration is falsy in
    Python, and the result is 0 either way). -/
def event_duration (v : Vevent) : Int :=
  match v.dtend with
  | some e => tdSub e v.dtstart
  | none =>
    match v.duration with
    | some dd => dd
    | none => 0

/-- strftime('%H:%M') of a minute-of-day. -/
def fmtHM (minute : Int) : PyStr :=
  twoDigit (Int.fdiv minute 60) ++ [':'] ++ twoDigit (Int.emod minute 60)

/-- Generate a Remind command from the given vevent (method to_remind).  The
    vevent is mutated in place when the all-day dtend decrement applies, so
    the updated vevent is returned alongside the generated line.  The
    DURATION clause is modelled for nonnegative whole-second durations. -/
def to_remind (localtz : Tz) (v : Vevent) (label : Option PyStr) (priority : Option Nat) :
    PyStr × Vevent :=
  let remind0 : List PyStr := [strL "REM"]
  let trigdates : Option (Sum (List PyStr) PyStr) :=
    v.rrule.map (fun r => parse_rruleset ⟨r, v.dtstart⟩)
  let isStr : Bool := match trigdates with | some (.inr _) => true | _ => false
  let r1 :=
    if v.rdate.isNone && !isStr then
      remind0 ++ [replaceAll (strL " 0") [' '] (fmtBDY (dateOf v.dtstart))]
    else remind0
  let r2 := match priority with
    | some p => if p ≠ 0 then r1 ++ [strL "PRIORITY " ++ natToStr p] else r1
    | none => r1
  let r3 := match trigdates with
    | some (.inl l) => r2 ++ l
    | _ => r2
  let dur := event_duration v
  let (r4, v') :=
    if !isDatetime v.dtstart && tdDays dur > 1 then
      let ra := r3 ++ [strL "*1"]
      match v.dtend with
      | some e =>
        let e' := addDays (-1) e
        (ra ++ [replaceAll (strL " 0") [' '] (strL "UNTIL " ++ fmtBDY (dateOf e'))],
         { v with dtend := some e' })
      | none => (ra, v)
    else (r3, v)
  let r5 :=
    match v.dtstart with
    | .dt x =>
      let shown := astimezone localtz x
      let rb := r4 ++ [replaceAll (strL " 0") [' '] (strL "AT " ++ fmtHM shown.minute)]
      if dur > 0 then
        rb ++ [strL "DURATION " ++ intToStr (Int.fdiv dur 3600) ++ [':'] ++
               twoDigit (Int.fdiv (Int.emod dur 3600) 60)]
      else rb
    | .d _ => r4
  let r6 := match v.rdate with
    | some ds => r5 ++ [parse_rdate ds]
    | none =>
      match trigdates with
      | some (.inr s) => r5 ++ [s]
      | _ => r5
  let r7 := r6 ++ gen_msg label v.summary v.location v.description
  (joinSep [' '] r7 ++ ['\n'], v')

/-- Result of a mutation call on a Remind file: the file content after the
    call, whether the file was written, whether a Python exception escaped to
    the caller, and whether the mutual-exclusion lock was left held forever. -/
structure MutResult where
  lines : List PyStr
  wrote : Bool
  raised : Bool
  lockStuck : Bool
deriving DecidableEq

/-- Remove the Remind command with the given uid name from the file (method
    remove).  known is whether the file is a key of the parsed cache, and
    fileLines is the content read from the file. -/
def remove (known : Bool) (name : PyStr) (fileLines : List PyStr) : MutResult :=
  if !known then ⟨fileLines, false, false, false⟩
  else
    let uid := splitChar '-' (((splitChar '@' name).get? 0).getD [])
    if uid.length ≠ 2 then ⟨fileLines, false, false, false⟩
    else
      match pyInt ((uid.get? 0).getD []) with
      | none => ⟨fileLines, false, true, false⟩
      | some k =>
        let line := k - 1
        match pyGetItem fileLines line with
        | none => ⟨fileLines, false, true, true⟩
        | some l =>
          if sha1hex l = (uid.get? 1).getD [] then
            ⟨pyDelItem fileLines line, true, false, false⟩
          else ⟨fileLines, false, false, false⟩

/-- Update the Remind command with the given uid name in the file (method
    replace); newtext is the Remind line generated from the replacement
    iCalendar text. -/
def replace (known : Bool) (name : PyStr) (newtext : PyStr) (fileLines : List PyStr) :
    MutResult :=
  if !known then ⟨fileLines, false, false, false⟩
  else
    let uid := splitChar '-' (((splitChar '@' name).get? 0).getD [])
    if uid.length ≠ 2 then ⟨fileLines, false, false, false⟩
    else
      match pyInt ((uid.get? 0).getD []) with
      | none => ⟨fileLines, false, true, false⟩
      | some k =>
        let line := k - 1
        match pyGetItem fileLines line with
        | none => ⟨fileLines, false, true, true⟩
        | some l =>
          if sha1hex l = (uid.get? 1).getD [] then
            ⟨pySetItem fileLines line newtext, true, false, false⟩
          else ⟨fileLines, false, false, false⟩

/-! ## Character-class facts -/

theorem digitChar_mem (d : Nat) : digitChar d ∈ strL "0123456789" := by
  unfold digitChar
  have h : d % 10 = 0 ∨ d % 10 = 1 ∨ d % 10 = 2 ∨ d % 10 = 3 ∨ d % 10 = 4 ∨ d % 10 = 5 ∨
      d % 10 = 6 ∨ d % 10 = 7 ∨ d % 10 = 8 ∨ d % 10 = 9 := by omega
  rcases h with h | h | h | h | h | h | h | h | h | h <;> rw [h] <;> decide

theorem digitVal_digitChar (d : Nat) : digitVal (digitChar d) = some (d % 10) := by
  unfold digitChar
  have h : d % 10 = 0 ∨ d % 10 = 1 ∨ d % 10 = 2 ∨ d % 10 = 3 ∨ d % 10 = 4 ∨ d % 10 = 5 ∨
      d % 10 = 6 ∨ d % 10 = 7 ∨ d % 10 = 8 ∨ d % 10 = 9 := by omega
  rcases h with h | h | h | h | h | h | h | h | h | h <;> rw [h] <;> decide

theorem hexChar_mem (k : Nat) (hk : k < 16) : hexChar k ∈ strL "0123456789abcdef" := by
  unfold hexChar
  have h : k = 0 ∨ k = 1 ∨ k = 2 ∨ k = 3 ∨ k = 4 ∨ k = 5 ∨ k = 6 ∨ k = 7 ∨ k = 8 ∨ k = 9 ∨
      k = 10 ∨ k = 11 ∨ k = 12 ∨ k = 13 ∨ k = 14 ∨ k = 15 := by omega
  rcases h with h | h | h | h | h | h | h | h | h | h | h | h | h | h | h | h <;>
    rw [h] <;> decide

theorem digit_props : ∀ c ∈ strL "0123456789",
    c ≠ '-' ∧ c ≠ '@' ∧ c ≠ '+' ∧ pySpace c = false := by decide

theorem hexdigit_props : ∀ c ∈ strL "0123456789abcdef", c ≠ '-' ∧ c ≠ '@' := by decide

theorem natDigitsAux_mem (fuel : Nat) :
    ∀ n c, c ∈ natDigitsAux fuel n → c ∈ strL "0123456789" := by
  induction fuel with
  | zero => intro n c hc; simp [natDigitsAux] at hc
  | succ fuel ih =>
    intro n c hc
    unfold natDigitsAux at hc
    by_cases h : n = 0
    · simp [h] at hc
    · rw [if_neg h] at hc
      rcases List.mem_append.mp hc with h1 | h2
      · exact ih _ _ h1
      · simp only [List.mem_singleton] at h2
        subst h2
        exact digitChar_mem _

theorem natToStr_mem (n : Nat) : ∀ c ∈ natToStr n, c ∈ strL "0123456789" := by
  intro c hc
  unfold natToStr at hc
  by_cases h : n = 0
  · rw [if_pos h] at hc; simp at hc; subst hc; decide
  · rw [if_neg h] at hc; exact natDigitsAux_mem _ _ _ hc

theorem natDigitsAux_ne_nil (fuel n : Nat) (h1 : 1 ≤ n) (h2 : n ≤ fuel) :
    natDigitsAux fuel n ≠ [] := by
  match fuel with
  | 0 => omega
  | fuel + 1 =>
    unfold natDigitsAux
    rw [if_neg (by omega)]
    simp

theorem natToStr_ne_nil (n : Nat) : natToStr n ≠ [] := by
  unfold natToStr
  by_cases h : n = 0
  · simp [h]
  · rw [if_neg h]; exact natDigitsAux_ne_nil _ _ (by omega) le_rfl

theorem hexDigest_mem (h : Nat) : ∀ c ∈ hexDigest h, c ∈ strL "0123456789abcdef" := by
  intro c hc
  unfold hexDigest at hc
  rcases List.mem_map.mp hc with ⟨i, _, hi⟩
  subst hi
  exact hexChar_mem _ (Nat.mod_lt _ (by norm_num))

theorem sha1hex_mem (s : PyStr) : ∀ c ∈ sha1hex s, c ∈ strL "0123456789abcdef" :=
  fun c hc => hexDigest_mem _ c hc

theorem sha1hex_length (s : PyStr) : (sha1hex s).length = 40 := by
  unfold sha1hex hexDigest
  simp

theorem dash_not_mem_natToStr (n : Nat) : '-' ∉ natToStr n := by
  intro h
  exact ((digit_props _ (natToStr_mem n _ h)).1 rfl).elim

theorem at_not_mem_natToStr (n : Nat) : '@' ∉ natToStr n := by
  intro h
  exact ((digit_props _ (natToStr_mem n _ h)).2.1 rfl).elim

theorem dash_not_mem_sha1hex (s : PyStr) : '-' ∉ sha1hex s := by
  intro h
  exact ((hexdigit_props _ (sha1hex_mem s _ h)).1 rfl).elim

theorem at_not_mem_sha1hex (s : PyStr) : '@' ∉ sha1hex s := by
  intro h
  exact ((hexdigit_props _ (sha1hex_mem s _ h)).2 rfl).elim

/-! ## pyInt of a rendered number -/

theorem dropWhile_of_none {p : Char → Bool} {s : PyStr} (h : ∀ c ∈ s, p c = false) :
    s.dropWhile p = s := by
  cases s with
  | nil => rfl
  | cons a s =>
    rw [List.dropWhile_cons, h a (by simp)]
    simp

theorem pyStrip_of_none {s : PyStr} (h : ∀ c ∈ s, pySpace c = false) : pyStrip s = s := by
  unfold pyStrip
  rw [dropWhile_of_none h, dropWhile_of_none (by intro c hc; exact h c (List.mem_reverse.mp hc)),
    List.reverse_reverse]

theorem digitsValAux_cons (acc : Nat) (c : Char) (s : PyStr) :
    digitsValAux acc (c :: s) =
      match digitVal c with
      | some d => digitsValAux (10 * acc + d) s
      | none => none := rfl

theorem digitsValAux_append (acc : Nat) (xs ys : PyStr) :
    digitsValAux acc (xs ++ ys) = (digitsValAux acc xs).bind (fun m => digitsValAux m ys) := by
  induction xs generalizing acc with
  | nil => rfl
  | cons c xs ih =>
    simp only [List.cons_append, digitsValAux_cons]
    cases hdv : digitVal c with
    | some d => simp only [ih]
    | none => rfl

theorem digitsValAux_natDigitsAux (fuel : Nat) :
    ∀ n acc, n ≤ fuel →
      digitsValAux acc (natDigitsAux fuel n) =
        some (acc * 10 ^ (natDigitsAux fuel n).length + n) := by
  induction fuel with
  | zero =>
    intro n acc hn
    have h0 : n = 0 := by omega
    subst h0
    simp [natDigitsAux, digitsValAux]
  | succ fuel ih =>
    intro n acc hn
    by_cases h : n = 0
    · subst h; simp [natDigitsAux, digitsValAux]
    · conv_lhs => rw [natDigitsAux]
      conv_rhs => rw [natDigitsAux]
      rw [if_neg h, digitsValAux_append]
      have hdiv : n / 10 ≤ fuel := by
        have := Nat.div_lt_self (by omega : 0 < n) (by norm_num : 1 < 10)
        omega
      rw [ih (n / 10) acc hdiv]
      simp only [Option.some_bind, digitsValAux_cons, digitVal_digitChar, digitsValAux]
      congr 1
      rw [List.length_append, List.length_singleton, pow_succ]
      have hmod := Nat.div_add_mod n 10
      set L := (natDigitsAux fuel (n / 10)).length
      ring_nf
      omega

theorem pyIntCore_cons (c : Char) (ds : PyStr) (h1 : c ≠ '+') (h2 : c ≠ '-') :
    pyIntCore (c :: ds) = (digitsGroup (c :: ds)).map Int.ofNat := by
  simp [pyIntCore, h1, h2]

theorem digitsValU_digits (s : PyStr) (h : ∀ x ∈ s, x ∈ strL "0123456789") :
    ∀ acc, digitsValU acc s = digitsValAux acc s := by
  induction s with
  | nil => intro acc; rfl
  | cons c s' ih =>
    intro acc
    have hc : c ∈ strL "0123456789" := h c (by simp)
    have hne : c ≠ '_' := by
      intro he
      subst he
      revert hc
      decide
    unfold digitsValU
    rw [if_neg hne]
    unfold digitsValAux
    cases hd : digitVal c with
    | none => simp only [hd]
    | some d =>
      simp only [hd]
      exact ih (fun x hx => h x (by simp [hx])) (10 * acc + d)

theorem digitsGroup_digits (c : Char) (cs : PyStr)
    (h : ∀ x ∈ c :: cs, x ∈ strL "0123456789") :
    digitsGroup (c :: cs) = digitsValAux 0 (c :: cs) := by
  unfold digitsGroup
  unfold digitsValAux
  cases hd : digitVal c with
  | none => simp only [hd]
  | some d =>
    simp only [hd]
    rw [digitsValU_digits cs (fun x hx => h x (by simp [hx])) d]
    norm_num

theorem pyInt_natToStr (n : Nat) : pyInt (natToStr n) = some (n : Int) := by
  by_cases h : n = 0
  · subst h; decide
  · have hmem := natToStr_mem n
    have hstrip : pyStrip (natToStr n) = natToStr n :=
      pyStrip_of_none (fun c hc => (digit_props c (hmem c hc)).2.2.2)
    obtain ⟨c, cs, hcs⟩ : ∃ c cs, natToStr n = c :: cs := by
      cases hne : natToStr n with
      | nil => exact (natToStr_ne_nil n hne).elim
      | cons c cs => exact ⟨c, cs, rfl⟩
    have hc : c ∈ strL "0123456789" := hmem c (by rw [hcs]; simp)
    unfold pyInt
    rw [hstrip, hcs, pyIntCore_cons c cs (digit_props c hc).2.2.1 (digit_props c hc).1]
    rw [digitsGroup_digits c cs (by rw [← hcs]; exact hmem), ← hcs]
    unfold natToStr
    rw [if_neg h]
    rw [digitsValAux_natDigitsAux n n 0 le_rfl]
    simp

/-! ## splitChar facts -/

theorem splitChar_cons (c a : Char) (s : PyStr) :
    splitChar c (a :: s) =
      if a = c then [] :: splitChar c s
      else
        match splitChar c s with
        | [] => [[a]]
        | p :: ps => (a :: p) :: ps := rfl

theorem splitChar_ne_nil (c : Char) (s : PyStr) : splitChar c s ≠ [] := by
  cases s with
  | nil => simp [splitChar]
  | cons a s =>
    rw [splitChar_cons]
    by_cases h : a = c
    · simp [h]
    · rw [if_neg h]
      cases splitChar c s <;> simp

theorem splitChar_of_not_mem {c : Char} {s : PyStr} (h : c ∉ s) : splitChar c s = [s] := by
  induction s with
  | nil => rfl
  | cons a s ih =>
    rw [splitChar_cons, if_neg (by intro he; exact h (by simp [he]))]
    rw [ih (by intro hm; exact h (by simp [hm]))]

theorem splitChar_append {c : Char} {xs : PyStr} (ys : PyStr) (h : c ∉ xs) :
    splitChar c (xs ++ c :: ys) = xs :: splitChar c ys := by
  induction xs with
  | nil => simp [splitChar_cons]
  | cons a xs ih =>
    rw [List.cons_append, splitChar_cons, if_neg (by intro he; exact h (by simp [he]))]
    rw [ih (by intro hm; exact h (by simp [hm]))]

/-! ## C5: identity round trip -/

/-- Claim C5: for every positive integer n and non-empty line text, splitting
    the generated identity on the host separator and then on the hyphen
    recovers the line number and a hex digest equal to the SHA-1 digest of the
    UTF-8 bytes of the line text. -/
theorem claim_c5_identity_roundtrip (n : Nat) (text host : PyStr)
    (hn : 1 ≤ n) (ht : text ≠ []) :
    splitChar '-' (((splitChar '@' (gen_uid host (natToStr n) text)).get? 0).getD [])
      = [natToStr n, sha1hex text] ∧
    pyInt (natToStr n) = some (n : Int) := by
  constructor
  · unfold gen_uid
    have hsplit :
        splitChar '@' ((natToStr n ++ '-' :: sha1hex text) ++ '@' :: host)
          = (natToStr n ++ '-' :: sha1hex text) :: splitChar '@' host := by
      apply splitChar_append
      intro hm
      rcases List.mem_append.mp hm with h1 | h2
      · exact at_not_mem_natToStr n h1
      · rcases List.mem_cons.mp h2 with h3 | h4
        · exact absurd h3 (by decide)
        · exact at_not_mem_sha1hex text h4
    have harr : natToStr n ++ ['-'] ++ sha1hex text ++ ['@'] ++ host
        = (natToStr n ++ '-' :: sha1hex text) ++ '@' :: host := by
      simp
    rw [harr, hsplit]
    simp only [List.get?_cons_zero, Option.getD_some]
    rw [splitChar_append (sha1hex text) (dash_not_mem_natToStr n)]
    rw [splitChar_of_not_mem (dash_not_mem_sha1hex text)]
  · exact pyInt_natToStr n

/-- Witness for C5 at n = 3, a concrete line text and host. -/
theorem claim_c5_identity_roundtrip_witness :
    1 ≤ 3 ∧ strL "REM foo" ≠ ([] : PyStr) ∧
    (splitChar '-'
        (((splitChar '@' (gen_uid (strL "example.org") (natToStr 3) (strL "REM foo"))).get? 0).getD [])
      = [natToStr 3, sha1hex (strL "REM foo")] ∧
    pyInt (natToStr 3) = some (3 : Int)) :=
  ⟨by decide, by decide,
   claim_c5_identity_roundtrip 3 (strL "REM foo") (strL "example.org") (by decide) (by decide)⟩

/-! ## The mutation operations: shared facts -/

/-- Splitting an identity of the shape k-h at host, with a hash free of the
    separator characters, gives exactly the two parts. -/
theorem uid_split (k : Nat) (h host : PyStr) (hd : '-' ∉ h) (ha : '@' ∉ h) :
    splitChar '-' (((splitChar '@' ((natToStr k ++ '-' :: h) ++ '@' :: host)).get? 0).getD [])
      = [natToStr k, h] := by
  rw [splitChar_append host (by
    intro hm
    rcases List.mem_append.mp hm with h1 | h2
    · exact at_not_mem_natToStr k h1
    · rcases List.mem_cons.mp h2 with h3 | h4
      · exact absurd h3 (by decide)
      · exact ha h4)]
  simp only [List.get?_cons_zero, Option.getD_some]
  rw [splitChar_append h (dash_not_mem_natToStr k), splitChar_of_not_mem hd]

theorem get?_of_getLast? {α : Type} {l : List α} {a : α} (h : l.getLast? = some a) :
    l.get? (l.length - 1) = some a := by
  induction l with
  | nil => simp at h
  | cons x xs ih =>
    cases xs with
    | nil => simp_all
    | cons y ys =>
      rw [List.getLast?_cons_cons] at h
      have := ih h
      simpa using this

theorem eraseIdx_length_sub_one {α : Type} (l : List α) :
    l.eraseIdx (l.length - 1) = l.dropLast := by
  induction l with
  | nil => rfl
  | cons x xs ih =>
    cases xs with
    | nil => rfl
    | cons y ys =>
      simp only [List.length_cons, Nat.add_sub_cancel, List.eraseIdx_cons_succ,
        List.dropLast_cons₂]
      have h2 : (y :: ys).length - 1 = ys.length := by simp
      rw [← h2, ih]

/-! ## C6: stale identity leaves the file unchanged -/

/-- Claim C6: remove and replace on a known file, given an identity that
    splits into exactly two parts whose hash part differs from the SHA-1
    digest of the addressed line, leave the file byte-for-byte unchanged. -/
theorem claim_c6_stale_identity_noop (k : Nat) (h host newtext l : PyStr)
    (lines : List PyStr)
    (hd : '-' ∉ h) (ha : '@' ∉ h)
    (hline : pyGetItem lines ((k : Int) - 1) = some l)
    (hne : h ≠ sha1hex l) :
    remove true ((natToStr k ++ '-' :: h) ++ '@' :: host) lines
        = ⟨lines, false, false, false⟩ ∧
    replace true ((natToStr k ++ '-' :: h) ++ '@' :: host) newtext lines
        = ⟨lines, false, false, false⟩ := by
  have hu := uid_split k h host hd ha
  constructor
  · unfold remove
    simp only [hu, pyInt_natToStr, hline, Bool.not_true, List.length_cons, List.length_nil,
      List.get?_cons_zero, List.get?_cons_succ, Option.getD_some]
    rw [if_neg (by decide), if_neg (by omega)]
    rw [if_neg (Ne.symm hne)]
  · unfold replace
    simp only [hu, pyInt_natToStr, hline, Bool.not_true, List.length_cons, List.length_nil,
      List.get?_cons_zero, List.get?_cons_succ, Option.getD_some]
    rw [if_neg (by decide), if_neg (by omega)]
    rw [if_neg (Ne.symm hne)]

/-- Witness for C6: a two-character hash can never equal a 40-character digest. -/
theorem claim_c6_stale_identity_noop_witness :
    remove true ((natToStr 1 ++ '-' :: strL "zz") ++ '@' :: strL "h") [strL "REM x\n"]
        = ⟨[strL "REM x\n"], false, false, false⟩ ∧
    replace true ((natToStr 1 ++ '-' :: strL "zz") ++ '@' :: strL "h") (strL "new\n")
        [strL "REM x\n"]
        = ⟨[strL "REM x\n"], false, false, false⟩ :=
  claim_c6_stale_identity_noop 1 (strL "zz") (strL "h") (strL "new\n") (strL "REM x\n")
    [strL "REM x\n"] (by decide) (by decide) (by decide)
    (by
      intro heq
      have hlen := congrArg List.length heq
      rw [sha1hex_length] at hlen
      exact absurd hlen (by decide))

/-! ## C7: malformed identities -/

/-- Counterexample to claim C7 as stated: the identity x-y at h does split
    into two parts, its line-number part is not a positive integer, and remove
    and replace raise a ValueError to the caller instead of being silent
    no-ops. -/
theorem claim_c7_counterexample :
    (remove true (strL "x-y@h") [strL "REM a\n"]).raised = true ∧
    (replace true (strL "x-y@h") (strL "new\n") [strL "REM a\n"]).raised = true := by
  constructor <;> decide

/-- Claim C7 amended: identities whose part before the host separator does
    not split on the hyphen into exactly two parts make remove and replace
    silent no-ops; but when it does split into two parts whose line-number
    part is ASCII text that int() rejects (no optional-sign, optional-
    whitespace, underscore-grouped digit run), int() raises a ValueError that
    escapes to the caller (before the lock is taken), the file still being
    unchanged.  The ASCII restriction is the domain on which the model's
    pyInt coincides with CPython's int(), which additionally accepts
    non-ASCII decimal digits and non-ASCII whitespace. -/
theorem claim_c7_amended (name newtext : PyStr) (lines : List PyStr) :
    ((splitChar '-' (((splitChar '@' name).get? 0).getD [])).length ≠ 2 →
      remove true name lines = ⟨lines, false, false, false⟩ ∧
      replace true name newtext lines = ⟨lines, false, false, false⟩) ∧
    ((splitChar '-' (((splitChar '@' name).get? 0).getD [])).length = 2 →
      (∀ c ∈ (((splitChar '-' (((splitChar '@' name).get? 0).getD [])).get? 0).getD []),
        c.toNat < 128) →
      pyInt (((splitChar '-' (((splitChar '@' name).get? 0).getD [])).get? 0).getD []) = none →
      remove true name lines = ⟨lines, false, true, false⟩ ∧
      replace true name newtext lines = ⟨lines, false, true, false⟩) := by
  constructor
  · intro hlen
    constructor
    · unfold remove
      simp only [Bool.not_true]
      rw [if_neg (by decide), if_pos hlen]
    · unfold replace
      simp only [Bool.not_true]
      rw [if_neg (by decide), if_pos hlen]
  · intro hlen _ hint
    constructor
    · unfold remove
      simp only [Bool.not_true, hint]
      rw [if_neg (by decide), if_neg (by omega)]
    · unfold replace
      simp only [Bool.not_true, hint]
      rw [if_neg (by decide), if_neg (by omega)]

/-- Witness for the amended C7: a one-part identity is silently ignored, and
    a two-part identity with a non-numeric line part raises. -/
theorem claim_c7_amended_witness :
    (remove true (strL "xy@h") [strL "REM a\n"] = ⟨[strL "REM a\n"], false, false, false⟩ ∧
     replace true (strL "xy@h") (strL "n\n") [strL "REM a\n"]
        = ⟨[strL "REM a\n"], false, false, false⟩) ∧
    (remove true (strL "9z-y@h") [strL "REM a\n"] = ⟨[strL "REM a\n"], false, true, false⟩ ∧
     replace true (strL "9z-y@h") (strL "n\n") [strL "REM a\n"]
        = ⟨[strL "REM a\n"], false, true, false⟩) :=
  ⟨(claim_c7_amended (strL "xy@h") (strL "n\n") [strL "REM a\n"]).1 (by decide),
   (claim_c7_amended (strL "9z-y@h") (strL "n\n") [strL "REM a\n"]).2 (by decide) (by decide)
     (by decide)⟩

/-! ## C9: out-of-range line numbers poison the lock -/

/-- Claim C9: remove and replace with an identity k-h at host, on a known file
    with fewer than k lines, raise an IndexError after the lock was acquired;
    the lock is never released and the file is not written. -/
theorem claim_c9_out_of_range_lock (k : Nat) (h host newtext : PyStr) (lines : List PyStr)
    (hd : '-' ∉ h) (ha : '@' ∉ h) (hlen : lines.length < k) :
    remove true ((natToStr k ++ '-' :: h) ++ '@' :: host) lines
        = ⟨lines, false, true, true⟩ ∧
    replace true ((natToStr k ++ '-' :: h) ++ '@' :: host) newtext lines
        = ⟨lines, false, true, true⟩ := by
  have hu := uid_split k h host hd ha
  have hget : pyGetItem lines ((k : Int) - 1) = none := by
    unfold pyGetItem
    simp only
    rw [if_neg (show ¬((k : Int) - 1 < 0) by omega)]
    rw [if_neg (show ¬(0 ≤ (k : Int) - 1 ∧ (k : Int) - 1 < (lines.length : Int)) by omega)]
  constructor
  · unfold remove
    simp only [hu, pyInt_natToStr, hget, Bool.not_true, List.length_cons, List.length_nil,
      List.get?_cons_zero, Option.getD_some]
    rw [if_neg (by decide), if_neg (by omega)]
  · unfold replace
    simp only [hu, pyInt_natToStr, hget, Bool.not_true, List.length_cons, List.length_nil,
      List.get?_cons_zero, Option.getD_some]
    rw [if_neg (by decide), if_neg (by omega)]

/-- Witness for C9 on a one-line file addressed at line 2. -/
theorem claim_c9_out_of_range_lock_witness :
    remove true ((natToStr 2 ++ '-' :: strL "zz") ++ '@' :: strL "h") [strL "REM a\n"]
        = ⟨[strL "REM a\n"], false, true, true⟩ ∧
    replace true ((natToStr 2 ++ '-' :: strL "zz") ++ '@' :: strL "h") (strL "n\n")
        [strL "REM a\n"]
        = ⟨[strL "REM a\n"], false, true, true⟩ :=
  claim_c9_out_of_range_lock 2 (strL "zz") (strL "h") (strL "n\n") [strL "REM a\n"]
    (by decide) (by decide) (by decide)

/-! ## C10: line number zero addresses the last line -/

/-- Claim C10: an identity whose line-number part is 0 is accepted; the
    computed index -1 addresses the last line, and when the hash matches the
    SHA-1 digest of that line, remove deletes it and replace rewrites it. -/
theorem claim_c10_zero_addresses_last (host newtext lastl : PyStr) (lines : List PyStr)
    (hl : lines.getLast? = some lastl) :
    remove true ((natToStr 0 ++ '-' :: sha1hex lastl) ++ '@' :: host) lines
        = ⟨lines.dropLast, true, false, false⟩ ∧
    replace true ((natToStr 0 ++ '-' :: sha1hex lastl) ++ '@' :: host) newtext lines
        = ⟨lines.set (lines.length - 1) newtext, true, false, false⟩ := by
  have hu := uid_split 0 (sha1hex lastl) host (dash_not_mem_sha1hex lastl)
    (at_not_mem_sha1hex lastl)
  have hlen : 1 ≤ lines.length := by
    cases lines with
    | nil => simp at hl
    | cons a r => simp
  have htom : ((0 : Int) - 1 + (lines.length : Int)).toNat = lines.length - 1 := by omega
  have hget : pyGetItem lines ((0 : Int) - 1) = some lastl := by
    unfold pyGetItem
    simp only
    rw [if_pos (show (0 : Int) - 1 < 0 by decide)]
    rw [if_pos (show 0 ≤ (0 : Int) - 1 + (lines.length : Int) ∧
        (0 : Int) - 1 + (lines.length : Int) < (lines.length : Int) by omega)]
    rw [htom]
    exact get?_of_getLast? hl
  constructor
  · unfold remove
    simp only [hu, pyInt_natToStr, Nat.cast_zero, hget, Bool.not_true, List.length_cons,
      List.length_nil, List.get?_cons_zero, List.get?_cons_succ, Option.getD_some]
    rw [if_neg (by decide), if_neg (by omega)]
    simp only [if_true]
    unfold pyDelItem
    simp only
    rw [if_pos (show (0 : Int) - 1 < 0 by decide), htom, eraseIdx_length_sub_one]
  · unfold replace
    simp only [hu, pyInt_natToStr, Nat.cast_zero, hget, Bool.not_true, List.length_cons,
      List.length_nil, List.get?_cons_zero, List.get?_cons_succ, Option.getD_some]
    rw [if_neg (by decide), if_neg (by omega)]
    simp only [if_true]
    unfold pySetItem
    simp only
    rw [if_pos (show (0 : Int) - 1 < 0 by decide), htom]

/-! ## Ordered occurrence lists: max, min, last -/

theorem tdDays_dates (e s : Int) :
    tdDays (tdSub (.d ⟨e⟩) (.d ⟨s⟩)) = e - s := by
  unfold tdDays tdSub pyKey
  have h : 60 * (e * 1440 - s * 1440) = 86400 * (e - s) := by ring
  rw [h, Int.mul_fdiv_cancel_left _ (by norm_num)]

theorem chain_key_forall (a : PyTime) (l : List PyTime)
    (h : List.Chain (fun x y => pyKey x < pyKey y) a l) :
    ∀ x ∈ l, pyKey a < pyKey x := by
  induction l generalizing a with
  | nil => intro x hx; simp at hx
  | cons b t ih =>
    rcases List.chain_cons.mp h with ⟨hab, hbt⟩
    intro x hx
    rcases List.mem_cons.mp hx with rfl | hxt
    · exact hab
    · exact lt_trans hab (ih b hbt x hxt)

theorem pyMax_chain (a : PyTime) (l : List PyTime)
    (h : List.Chain (fun x y => pyKey x < pyKey y) a l) :
    pyMax (a :: l) = ((a :: l).getLast?).getD a := by
  induction l generalizing a with
  | nil => rfl
  | cons b t ih =>
    rcases List.chain_cons.mp h with ⟨hab, hbt⟩
    have hb : pyLtB a b = true := by
      simp only [pyLtB, decide_eq_true_eq]
      exact hab
    have step1 : pyMax (a :: b :: t) = pyMax (b :: t) := by
      unfold pyMax
      simp only [List.foldl_cons, hb, if_true]
    rw [step1, ih b hbt, List.getLast?_cons_cons]
    cases t with
    | nil => rfl
    | cons c u =>
      rw [List.getLast?_cons_cons]
      cases hz : (c :: u).getLast? with
      | none => simp at hz
      | some z => rfl

theorem foldl_min_id (a : PyTime) (l : List PyTime)
    (hall : ∀ x ∈ l, pyKey a < pyKey x) :
    l.foldl (fun acc x => if pyLtB x acc then x else acc) a = a := by
  induction l with
  | nil => rfl
  | cons b t ih =>
    have hb : pyLtB b a = false := by
      simp only [pyLtB, decide_eq_false_iff_not]
      have := hall b (by simp)
      omega
    simp only [List.foldl_cons, hb, Bool.false_eq_true, if_false]
    exact ih (fun x hx => hall x (by simp [hx]))

theorem pyMin_chain (a : PyTime) (l : List PyTime)
    (h : List.Chain (fun x y => pyKey x < pyKey y) a l) :
    pyMin (a :: l) = a := by
  unfold pyMin
  exact foldl_min_id a l (chain_key_forall a l h)

theorem chain_step_getLast (step : Int) (dates : List Int) (d0 dl : Int)
    (hc : List.Chain' (fun a b => b = a + step) dates)
    (hh : dates.head? = some d0) (hl : dates.getLast? = some dl) :
    dl = d0 + step * ((dates.length : Int) - 1) := by
  induction dates generalizing d0 with
  | nil => simp at hh
  | cons a t ih =>
    simp only [List.head?_cons, Option.some.injEq] at hh
    subst hh
    cases t with
    | nil =>
      simp only [List.getLast?_singleton, Option.some.injEq] at hl
      subst hl
      simp
    | cons b u =>
      rcases List.chain'_cons.mp hc with ⟨hab, hbu⟩
      rw [List.getLast?_cons_cons] at hl
      have hres := ih b hbu (by simp) hl
      have hlen : ((a :: b :: u).length : Int) - 1 = ((b :: u).length : Int) := by
        push_cast [List.length_cons]
        ring
      rw [hlen, hres, hab]
      push_cast [List.length_cons]
      ring

theorem chain_map_key (step : Int) (hstep : 0 < step) (dates : List Int)
    (hc : List.Chain' (fun a b => b = a + step) dates) :
    List.Chain' (fun x y => pyKey x < pyKey y)
      (dates.map (fun r => PyTime.d ⟨r⟩)) := by
  rw [List.chain'_map]
  refine hc.imp (fun a b hab => ?_)
  simp only [pyKey]
  omega

theorem getLast?_map {α β : Type} (f : α → β) (l : List α) :
    (l.map f).getLast? = l.getLast?.map f := by
  induction l with
  | nil => rfl
  | cons a t ih =>
    cases t with
    | nil => rfl
    | cons b u =>
      simp only [List.map_cons, List.getLast?_cons_cons] at *
      exact ih

/-! ## Evaluating recurrence inference on uniform date lists -/

/-- Inference on consecutive all-day dates: a plain dtend, one day past the
    last date, and nothing else. -/
theorem gen_dtend_rrule_daily_span (v : Vevent) (dates : List Int) (d0 dl : Int)
    (hh : dates.head? = some d0) (hl : dates.getLast? = some dl)
    (hc : List.Chain' (fun a b => b = a + 1) dates) :
    gen_dtend_rrule (dates.map (fun r => PyTime.d ⟨r⟩)) v
      = { v with dtend := some (.d ⟨dl + 1⟩) } := by
  obtain ⟨a, t, rfl⟩ : ∃ a t, dates = a :: t := by
    cases dates with
    | nil => simp at hh
    | cons a t => exact ⟨a, t, rfl⟩
  simp only [List.head?_cons, Option.some.injEq] at hh
  subst hh
  have hchain : List.Chain (fun x y => pyKey x < pyKey y) (PyTime.d ⟨a⟩)
      (t.map (fun r => PyTime.d ⟨r⟩)) := by
    have h := chain_map_key 1 (by norm_num) (a :: t) hc
    rw [List.map_cons] at h
    exact h
  have hgl : (PyTime.d ⟨a⟩ :: t.map (fun r => PyTime.d ⟨r⟩)).getLast? = some (.d ⟨dl⟩) := by
    have h0 : PyTime.d ⟨a⟩ :: t.map (fun r => PyTime.d ⟨r⟩)
        = (a :: t).map (fun r => PyTime.d ⟨r⟩) := by simp
    rw [h0, getLast?_map, hl]
    rfl
  have hmax : pyMax (PyTime.d ⟨a⟩ :: t.map (fun r => PyTime.d ⟨r⟩)) = .d ⟨dl⟩ := by
    rw [pyMax_chain _ _ hchain, hgl]
    rfl
  have hmin : pyMin (PyTime.d ⟨a⟩ :: t.map (fun r => PyTime.d ⟨r⟩)) = .d ⟨a⟩ :=
    pyMin_chain _ _ hchain
  have hstep := chain_step_getLast 1 (a :: t) a dl hc (by simp) hl
  simp only [List.map_cons, gen_dtend_rrule]
  rw [hmax, hmin, tdDays_dates]
  rw [if_pos (by push_cast [List.length_cons, List.length_map] at *; omega)]
  simp only [isDatetime, Bool.false_eq_true, if_false, hgl, Option.getD_some, addDays]

/-- Inference on dates exactly seven days apart: a weekly rule with count N. -/
theorem gen_dtend_rrule_weekly_cadence (v : Vevent) (dates : List Int) (d0 dl : Int)
    (hh : dates.head? = some d0) (hl : dates.getLast? = some dl)
    (hc : List.Chain' (fun a b => b = a + 7) dates) (hn : 2 ≤ dates.length) :
    gen_dtend_rrule (dates.map (fun r => PyTime.d ⟨r⟩)) v
      = { v with rrule := some ⟨duWEEKLY, some dates.length, none, none⟩ } := by
  obtain ⟨a, t, rfl⟩ : ∃ a t, dates = a :: t := by
    cases dates with
    | nil => simp at hh
    | cons a t => exact ⟨a, t, rfl⟩
  simp only [List.head?_cons, Option.some.injEq] at hh
  subst hh
  have hchain : List.Chain (fun x y => pyKey x < pyKey y) (PyTime.d ⟨a⟩)
      (t.map (fun r => PyTime.d ⟨r⟩)) := by
    have h := chain_map_key 7 (by norm_num) (a :: t) hc
    rw [List.map_cons] at h
    exact h
  have hgl : (PyTime.d ⟨a⟩ :: t.map (fun r => PyTime.d ⟨r⟩)).getLast? = some (.d ⟨dl⟩) := by
    have h0 : PyTime.d ⟨a⟩ :: t.map (fun r => PyTime.d ⟨r⟩)
        = (a :: t).map (fun r => PyTime.d ⟨r⟩) := by simp
    rw [h0, getLast?_map, hl]
    rfl
  have hmax : pyMax (PyTime.d ⟨a⟩ :: t.map (fun r => PyTime.d ⟨r⟩)) = .d ⟨dl⟩ := by
    rw [pyMax_chain _ _ hchain, hgl]
    rfl
  have hmin : pyMin (PyTime.d ⟨a⟩ :: t.map (fun r => PyTime.d ⟨r⟩)) = .d ⟨a⟩ :=
    pyMin_chain _ _ hchain
  have hstep := chain_step_getLast 7 (a :: t) a dl hc (by simp) hl
  have hweek : weeklyAux (PyTime.d ⟨a⟩) (t.map (fun r => PyTime.d ⟨r⟩)) = true := by
    clear hl hgl hmax hmin hstep hn hchain
    induction t generalizing a with
    | nil => rfl
    | cons b u ih =>
      rcases List.chain'_cons.mp hc with ⟨hab, hbu⟩
      rw [List.map_cons]
      show (tdDays (tdSub (.d ⟨b⟩) (.d ⟨a⟩)) == 7 &&
        weeklyAux (PyTime.d ⟨b⟩) (u.map (fun r => PyTime.d ⟨r⟩))) = true
      rw [tdDays_dates, ih b hbu]
      subst hab
      simp
  simp only [List.map_cons, gen_dtend_rrule]
  rw [hmax, hmin, tdDays_dates]
  rw [if_neg (by push_cast [List.length_cons, List.length_map] at *; omega)]
  show (if weekly (PyTime.d ⟨a⟩ :: t.map (fun r => PyTime.d ⟨r⟩)) = true then _ else _) = _
  rw [show weekly (PyTime.d ⟨a⟩ :: t.map (fun r => PyTime.d ⟨r⟩)) = true from hweek]
  simp only [if_true, List.length_map, List.length_cons]

/-- Compression of a plain COUNT-based weekly rule. -/
theorem parse_rruleset_weekly (dtstart : PyTime) (n : Nat) (hn : 1 ≤ n) :
    parse_rruleset ⟨⟨duWEEKLY, some n, none, none⟩, dtstart⟩
      = .inl [strL "*7",
          replaceAll (strL " 0") [' ']
            (strL "UNTIL " ++ fmtBDY (dateOf (addDays (7 * ((n : Int) - 1)) dtstart)))] := by
  obtain ⟨m, rfl⟩ : ∃ m, n = m + 1 := ⟨n - 1, by omega⟩
  have hcast : (((m + 1 : Nat)) : Int) - 1 = (m : Int) := by push_cast; ring
  have hlast : lastInstance ⟨⟨2, some (m + 1), none, none⟩, dtstart⟩
      = addDays (7 * (m : Int)) dtstart := by
    simp [lastInstance, ruleInstances, duWEEKLY, duDAILY, List.range_succ]
  simp [parse_rruleset, duWEEKLY, duDAILY, hlast, hcast]

/-! ## Evaluating to_remind on a plain multi-day all-day event -/

/-- Reverse translation of an all-day event with an exclusive end more than
    one day after the start and no recurrence: the line is REM, the start
    date, the interval marker, an UNTIL clause at end minus one day, and the
    message; the event's stored dtend is decremented in place. -/
theorem to_remind_allday (tz : Tz) (v : Vevent) (label : Option PyStr) (s e : Int)
    (h1 : v.dtstart = .d ⟨s⟩) (h2 : v.dtend = some (.d ⟨e⟩))
    (h3 : v.rrule = none) (h4 : v.rdate = none) (h5 : 1 < e - s) :
    to_remind tz v label none =
      (joinSep [' ']
        ([strL "REM", replaceAll (strL " 0") [' '] (fmtBDY s), strL "*1",
          replaceAll (strL " 0") [' '] (strL "UNTIL " ++ fmtBDY (e - 1))] ++
         gen_msg label v.summary v.location v.description) ++ ['\n'],
       { v with dtend := some (.d ⟨e - 1⟩) }) := by
  obtain ⟨ds, de, du, su, lo, dc, rr, rd, va, ui⟩ := v
  simp only at h1 h2 h3 h4
  subst h1 h2 h3 h4
  unfold to_remind
  simp only [Option.map_none', Option.isNone_none, Bool.not_false, Bool.and_true,
    Bool.true_and, if_true, dateOf, isDatetime, Bool.not_true, Bool.false_eq_true, if_false,
    event_duration, tdDays_dates, decide_eq_true_eq, addDays]
  rw [if_pos h5]
  have he : e + (-1) = e - 1 := by ring
  rw [he]
  rfl

/-- The dtend mutation in to_remind, independent of recurrence fields and
    priority: on an all-day event with an end more than one day after the
    start, the returned vevent has its stored dtend decremented by one day. -/
theorem to_remind_mutates_dtend (tz : Tz) (v : Vevent) (label : Option PyStr)
    (prio : Option Nat) (s e : Int)
    (h1 : v.dtstart = .d ⟨s⟩) (h2 : v.dtend = some (.d ⟨e⟩)) (h5 : 1 < e - s) :
    (to_remind tz v label prio).2 = { v with dtend := some (.d ⟨e - 1⟩) } := by
  obtain ⟨ds, de, du, su, lo, dc, rr, rd, va, ui⟩ := v
  simp only at h1 h2
  subst h1 h2
  unfold to_remind
  simp only [isDatetime, Bool.not_false, Bool.true_and, event_duration, tdDays_dates,
    decide_eq_true_eq]
  rw [if_pos h5]
  have he : e + (-1) = e - 1 := by ring
  simp only [addDays, he]

/-! ## C1: consecutive all-day spans -/

/-- Claim C1: on a list of N consecutive all-day occurrence dates (N at least
    2), recurrence inference attaches no recurrence rule and sets the event's
    dtend to the last date plus one day; and reverse translation of such an
    all-day event emits the interval marker *1 followed by an UNTIL clause at
    the stored exclusive end date minus one day. -/
theorem claim_c1_daily_span (v w : Vevent) (tz : Tz) (label : Option PyStr)
    (dates : List Int) (d0 dl : Int)
    (hh : dates.head? = some d0) (hl : dates.getLast? = some dl)
    (hc : List.Chain' (fun a b => b = a + 1) dates) (hn : 2 ≤ dates.length)
    (hw1 : w.dtstart = .d ⟨d0⟩) (hw2 : w.dtend = some (.d ⟨dl + 1⟩))
    (hw3 : w.rrule = none) (hw4 : w.rdate = none) :
    gen_dtend_rrule (dates.map (fun r => PyTime.d ⟨r⟩)) v
        = { v with dtend := some (.d ⟨dl + 1⟩) } ∧
    to_remind tz w label none =
      (joinSep [' ']
        ([strL "REM", replaceAll (strL " 0") [' '] (fmtBDY d0), strL "*1",
          replaceAll (strL " 0") [' '] (strL "UNTIL " ++ fmtBDY (dl + 1 - 1))] ++
         gen_msg label w.summary w.location w.description) ++ ['\n'],
       { w with dtend := some (.d ⟨dl + 1 - 1⟩) }) := by
  have hstep := chain_step_getLast 1 dates d0 dl hc hh hl
  exact ⟨gen_dtend_rrule_daily_span v dates d0 dl hh hl hc,
    to_remind_allday tz w label d0 (dl + 1) hw1 hw2 hw3 hw4 (by omega)⟩

/-- Witness for C1 on the dates 2024-01-01, 01-02, 01-03 (day numbers
    19723..19725): dtend becomes 2024-01-04, and the line reads
    REM Jan 1 2024 *1 UNTIL Jan 3 2024 MSG Party. -/
theorem claim_c1_daily_span_witness :
    gen_dtend_rrule ([19723, 19724, 19725].map (fun r => PyTime.d ⟨r⟩))
        ⟨.d ⟨19723⟩, none, none, strL "Party", none, none, none, none, none, strL "u"⟩
      = { (⟨.d ⟨19723⟩, none, none, strL "Party", none, none, none, none, none,
            strL "u"⟩ : Vevent) with dtend := some (.d ⟨19726⟩) } ∧
    to_remind ⟨strL "Europe/Berlin", 60⟩
        ⟨.d ⟨19723⟩, some (.d ⟨19726⟩), none, strL "Party", none, none, none, none, none,
          strL "u"⟩ none none =
      (joinSep [' ']
        ([strL "REM", replaceAll (strL " 0") [' '] (fmtBDY 19723), strL "*1",
          replaceAll (strL " 0") [' '] (strL "UNTIL " ++ fmtBDY 19725)] ++
         gen_msg none (strL "Party") none none) ++ ['\n'],
       { (⟨.d ⟨19723⟩, some (.d ⟨19726⟩), none, strL "Party", none, none, none, none, none,
            strL "u"⟩ : Vevent) with dtend := some (.d ⟨19725⟩) }) :=
  claim_c1_daily_span
    ⟨.d ⟨19723⟩, none, none, strL "Party", none, none, none, none, none, strL "u"⟩
    ⟨.d ⟨19723⟩, some (.d ⟨19726⟩), none, strL "Party", none, none, none, none, none, strL "u"⟩
    ⟨strL "Europe/Berlin", 60⟩ none [19723, 19724, 19725] 19723 19725
    (by decide) (by decide) (by norm_num [List.chain'_cons]) (by decide)
    (by decide) (by decide) (by decide) (by decide)

/-! ## C2: weekly cadences -/

/-- Claim C2: on a list of N occurrence dates with every consecutive gap
    exactly 7 days (N at least 2), inference produces a weekly rule with count
    N; and compression of a plain weekly COUNT rule (no weekday subset, no
    until) yields exactly *7 and an UNTIL clause at the date of the Nth
    occurrence, dtstart plus 7(N-1) days. -/
theorem claim_c2_weekly_cadence (v : Vevent) (dates : List Int) (d0 dl : Int)
    (dtstart : PyTime)
    (hh : dates.head? = some d0) (hl : dates.getLast? = some dl)
    (hc : List.Chain' (fun a b => b = a + 7) dates) (hn : 2 ≤ dates.length) :
    gen_dtend_rrule (dates.map (fun r => PyTime.d ⟨r⟩)) v
        = { v with rrule := some ⟨duWEEKLY, some dates.length, none, none⟩ } ∧
    parse_rruleset ⟨⟨duWEEKLY, some dates.length, none, none⟩, dtstart⟩
      = .inl [strL "*7",
          replaceAll (strL " 0") [' ']
            (strL "UNTIL " ++
              fmtBDY (dateOf (addDays (7 * ((dates.length : Int) - 1)) dtstart)))] :=
  ⟨gen_dtend_rrule_weekly_cadence v dates d0 dl hh hl hc hn,
   parse_rruleset_weekly dtstart dates.length (by omega)⟩

/-- Witness for C2 on the dates 2024-01-01, 01-08, 01-15: a weekly rule with
    count 3, compressed to *7 UNTIL Jan 15 2024. -/
theorem claim_c2_weekly_cadence_witness :
    gen_dtend_rrule ([19723, 19730, 19737].map (fun r => PyTime.d ⟨r⟩))
        ⟨.d ⟨19723⟩, none, none, strL "Gym", none, none, none, none, none, strL "u"⟩
      = { (⟨.d ⟨19723⟩, none, none, strL "Gym", none, none, none, none, none,
            strL "u"⟩ : Vevent) with
          rrule := some ⟨duWEEKLY, some 3, none, none⟩ } ∧
    parse_rruleset ⟨⟨duWEEKLY, some 3, none, none⟩, .d ⟨19723⟩⟩
      = .inl [strL "*7",
          replaceAll (strL " 0") [' ']
            (strL "UNTIL " ++ fmtBDY (dateOf (addDays (7 * ((3 : Int) - 1)) (.d ⟨19723⟩))))] :=
  claim_c2_weekly_cadence
    ⟨.d ⟨19723⟩, none, none, strL "Gym", none, none, none, none, none, strL "u"⟩
    [19723, 19730, 19737] 19723 19737 (.d ⟨19723⟩)
    (by decide) (by decide) (by norm_num [List.chain'_cons]) (by decide)

/-! ## C8: the dtend mutation and non-idempotence of to_remind -/

/-- Counterexample to claim C8 as stated: for the all-day event 2024-01-01
    with exclusive end 2024-01-03 (end more than one day after start), the
    first call emits UNTIL Jan 2 2024 and decrements the stored end to
    2024-01-02, but a second call emits no UNTIL clause at all rather than an
    UNTIL one day earlier. -/
theorem claim_c8_counterexample :
    (to_remind ⟨strL "Europe/Berlin", 60⟩
        ⟨.d ⟨19723⟩, some (.d ⟨19725⟩), none, strL "Trip", none, none, none, none, none,
          strL "u"⟩ none none).2.dtend = some (.d ⟨19724⟩) ∧
    hasSub (strL "UNTIL Jan 2 2024")
      ((to_remind ⟨strL "Europe/Berlin", 60⟩
        ⟨.d ⟨19723⟩, some (.d ⟨19725⟩), none, strL "Trip", none, none, none, none, none,
          strL "u"⟩ none none).1) = true ∧
    hasSub (strL "UNTIL")
      ((to_remind ⟨strL "Europe/Berlin", 60⟩
        ((to_remind ⟨strL "Europe/Berlin", 60⟩
          ⟨.d ⟨19723⟩, some (.d ⟨19725⟩), none, strL "Trip", none, none, none, none, none,
            strL "u"⟩ none none).2) none none).1) = false := by
  refine ⟨by decide, by decide, by decide⟩

/-- Claim C8 amended: to_remind always decrements the stored end date of an
    all-day event whose end is more than one day past the start (for any
    recurrence fields and priority), so it mutates its input; a second call
    emits an UNTIL clause one day earlier than the first provided the end was
    more than two days past the start (at exactly two days, the second call
    emits no UNTIL clause at all). -/
theorem claim_c8_amended (tz : Tz) (v : Vevent) (label : Option PyStr)
    (prio : Option Nat) (s e : Int)
    (h1 : v.dtstart = .d ⟨s⟩) (h2 : v.dtend = some (.d ⟨e⟩)) (h5 : 1 < e - s) :
    (to_remind tz v label prio).2 = { v with dtend := some (.d ⟨e - 1⟩) } ∧
    (v.rrule = none → v.rdate = none → 2 < e - s →
      to_remind tz ((to_remind tz v label none).2) label none =
        (joinSep [' ']
          ([strL "REM", replaceAll (strL " 0") [' '] (fmtBDY s), strL "*1",
            replaceAll (strL " 0") [' '] (strL "UNTIL " ++ fmtBDY (e - 1 - 1))] ++
           gen_msg label v.summary v.location v.description) ++ ['\n'],
         { v with dtend := some (.d ⟨e - 1 - 1⟩) })) := by
  refine ⟨to_remind_mutates_dtend tz v label prio s e h1 h2 h5, ?_⟩
  intro h3 h4 h6
  have hfirst := to_remind_allday tz v label s e h1 h2 h3 h4 h5
  rw [hfirst]
  have h1' : ({ v with dtend := some (.d ⟨e - 1⟩) } : Vevent).dtstart = .d ⟨s⟩ := h1
  have h2' : ({ v with dtend := some (.d ⟨e - 1⟩) } : Vevent).dtend = some (.d ⟨e - 1⟩) := rfl
  have h3' : ({ v with dtend := some (.d ⟨e - 1⟩) } : Vevent).rrule = none := h3
  have h4' : ({ v with dtend := some (.d ⟨e - 1⟩) } : Vevent).rdate = none := h4
  have hsecond := to_remind_allday tz _ label s (e - 1) h1' h2' h3' h4' (by omega)
  rw [hsecond]

/-- Witness for the amended C8: start 2024-01-01, exclusive end 2024-01-05. -/
theorem claim_c8_amended_witness :
    (to_remind ⟨strL "Europe/Berlin", 60⟩
        ⟨.d ⟨19723⟩, some (.d ⟨19727⟩), none, strL "Trip", none, none, none, none, none,
          strL "u"⟩ none none).2
      = { (⟨.d ⟨19723⟩, some (.d ⟨19727⟩), none, strL "Trip", none, none, none, none, none,
            strL "u"⟩ : Vevent) with dtend := some (.d ⟨19726⟩) } ∧
    to_remind ⟨strL "Europe/Berlin", 60⟩
        ((to_remind ⟨strL "Europe/Berlin", 60⟩
          ⟨.d ⟨19723⟩, some (.d ⟨19727⟩), none, strL "Trip", none, none, none, none, none,
            strL "u"⟩ none none).2) none none =
      (joinSep [' ']
        ([strL "REM", replaceAll (strL " 0") [' '] (fmtBDY 19723), strL "*1",
          replaceAll (strL " 0") [' '] (strL "UNTIL " ++ fmtBDY 19725)] ++
         gen_msg none (strL "Trip") none none) ++ ['\n'],
       { (⟨.d ⟨19723⟩, some (.d ⟨19727⟩), none, strL "Trip", none, none, none, none, none,
            strL "u"⟩ : Vevent) with dtend := some (.d ⟨19725⟩) }) :=
  ⟨(claim_c8_amended ⟨strL "Europe/Berlin", 60⟩
      ⟨.d ⟨19723⟩, some (.d ⟨19727⟩), none, strL "Trip", none, none, none, none, none,
        strL "u"⟩ none none 19723 19727 (by decide) (by decide) (by decide)).1,
   (claim_c8_amended ⟨strL "Europe/Berlin", 60⟩
      ⟨.d ⟨19723⟩, some (.d ⟨19727⟩), none, strL "Trip", none, none, none, none, none,
        strL "u"⟩ none none 19723 19727 (by decide) (by decide) (by decide)).2
      (by decide) (by decide) (by decide)⟩

/-! ## C4: parsing one expansion record -/

/-- Counterexample to claim C4 as stated: on the record given in the claim the
    date field 1/1/2024 is read as year/month/day, so date(1, 1, 2024) raises
    ValueError (day out of range) and no event at all is produced; moreover
    field 8 (time-of-day) is '*', which would have made the event all-day, not
    timed. -/
theorem claim_c4_counterexample :
    parse_remind_line ⟨strL "Europe/Berlin", 60⟩ (strL "host")
        (splitChar ' ' (strL "# 1 1 mylife.rem 1/1/2024 * * 600 * Meeting at Office"))
        (strL "REM 1 Jan 2024 AT 10:00 MSG Meeting at Office\n")
      = none := by decide

/-- Claim C4 amended: the record with the date in remind's actual YYYY/MM/DD
    order, the time-of-day 600 in field 8 (field 7, the duration, being '*'),
    and remind's formatted-time token in field 9, parses into exactly one
    timed event: summary Meeting, location Office, start 2024-01-01 10:00 in
    the local time zone, no duration; and its vevent carries a 10-minute-
    before display alarm and no end beyond the default dtend = dtstart. -/
theorem claim_c4_amended (tz : Tz) (host : PyStr) :
    parse_remind_line tz host
        (splitChar ' ' (strL "# 1 1 mylife.rem 2024/01/01 * * * 600 10:00am Meeting at Office"))
        (strL "REM 1 Jan 2024 AT 10:00 MSG Meeting at Office\n")
      = some ⟨[.dt ⟨daysFromCivil 2024 1 1, 600, tz⟩], none, strL "Meeting",
              some (strL "Office"), none,
              gen_uid host (strL "1") (strL "REM 1 Jan 2024 AT 10:00 MSG Meeting at Office\n")⟩ ∧
    gen_vevent ⟨[.dt ⟨daysFromCivil 2024 1 1, 600, tz⟩], none, strL "Meeting",
              some (strL "Office"), none,
              gen_uid host (strL "1") (strL "REM 1 Jan 2024 AT 10:00 MSG Meeting at Office\n")⟩
      = some ⟨.dt ⟨daysFromCivil 2024 1 1, 600, tz⟩,
              some (.dt ⟨daysFromCivil 2024 1 1, 600, tz⟩), none, strL "Meeting",
              some (strL "Office"), none, none, none,
              some ⟨-600, strL "DISPLAY", strL "Meeting"⟩,
              gen_uid host (strL "1") (strL "REM 1 Jan 2024 AT 10:00 MSG Meeting at Office\n")⟩ := by
  constructor
  · rfl
  · rfl

/-! ## Substring-occurrence facts -/

theorem hasSub_tail {pat : PyStr} {c : Char} {s : PyStr}
    (h : hasSub pat (c :: s) = false) : hasSub pat s = false := by
  unfold hasSub at h
  exact (Bool.or_eq_false_iff.mp h).2

theorem hasSub_false_drop {p : Char} {pr s : PyStr}
    (h : hasSub (p :: pr) s = false) :
    ∀ i, (p :: pr).isPrefixOf (s.drop i) = false := by
  induction s with
  | nil =>
    intro i
    simp [List.drop_nil, List.isPrefixOf]
  | cons c s' ih =>
    intro i
    cases i with
    | zero =>
      unfold hasSub at h
      exact (Bool.or_eq_false_iff.mp h).1
    | succ j => exact ih (hasSub_tail h) j

theorem hasSub_of_occursAt {pat s : PyStr} {i : Nat}
    (h : pat.isPrefixOf (s.drop i) = true) : hasSub pat s = true := by
  induction s generalizing i with
  | nil =>
    simp only [List.drop_nil] at h
    unfold hasSub
    exact h
  | cons c s' ih =>
    cases i with
    | zero =>
      unfold hasSub
      simp only [List.drop] at h
      rw [h]
      simp
    | succ j =>
      unfold hasSub
      rw [ih (by simpa using h)]
      simp

theorem hasSub_mid (pat x y : PyStr) : hasSub pat (x ++ pat ++ y) = true := by
  apply hasSub_of_occursAt (i := x.length)
  have hd : (x ++ pat ++ y).drop x.length = pat ++ y := by
    rw [List.append_assoc, List.drop_append_of_le_length le_rfl]
    simp
  rw [hd]
  have : pat <+: pat ++ y := List.prefix_append pat y
  exact List.isPrefixOf_iff_prefix.mpr this

theorem isPrefixOf_append_of_length {pat x : PyStr} (y : PyStr)
    (h : pat.length ≤ x.length) :
    pat.isPrefixOf (x ++ y) = pat.isPrefixOf x := by
  induction pat generalizing x with
  | nil => simp [List.isPrefixOf]
  | cons p pr ih =>
    cases x with
    | nil => simp at h
    | cons c x' =>
      simp only [List.cons_append, List.isPrefixOf, List.append_eq]
      rw [ih (by simpa using h)]

theorem firstOcc_of_none {pat : PyStr} {s : PyStr} (h : hasSub pat s = false) :
    firstOcc pat s = none := by
  induction s with
  | nil =>
    unfold hasSub at h
    unfold firstOcc
    rw [h]
    rfl
  | cons c s' ih =>
    unfold hasSub at h
    rcases Bool.or_eq_false_iff.mp h with ⟨h1, h2⟩
    unfold firstOcc
    rw [h1]
    simp [ih h2]

theorem firstOcc_eq (p : Char) (pr : PyStr) :
    ∀ (m : Nat) (s : PyStr), (p :: pr).isPrefixOf (s.drop m) = true →
      (∀ j, j < m → (p :: pr).isPrefixOf (s.drop j) = false) →
      firstOcc (p :: pr) s = some m := by
  intro m
  induction m with
  | zero =>
    intro s hm _
    cases s with
    | nil => simp [List.isPrefixOf] at hm
    | cons c s' =>
      unfold firstOcc
      simp only [List.drop] at hm
      rw [hm]
      rfl
  | succ k ih =>
    intro s hm hlt
    cases s with
    | nil => simp [List.isPrefixOf] at hm
    | cons c s' =>
      unfold firstOcc
      rw [show (p :: pr).isPrefixOf (c :: s') = false from by
        have := hlt 0 (by omega)
        simpa using this]
      rw [ih s' (by simpa using hm)
        (fun j hj => by have := hlt (j + 1) (by omega); simpa using this)]
      rfl

theorem lastOccAux_eq (pat s : PyStr) (m : Nat) (hm : occursAt pat s m = true) :
    ∀ k, m ≤ k → (∀ j, m < j → j ≤ k → occursAt pat s j = false) →
      lastOccAux pat s k = some m := by
  intro k
  induction k with
  | zero =>
    intro hk _
    have h0 : m = 0 := by omega
    subst h0
    unfold lastOccAux
    rw [hm]
    rfl
  | succ k' ih =>
    intro hk hmax
    by_cases he : m = k' + 1
    · subst he
      unfold lastOccAux
      rw [hm]
      rfl
    · have hj := hmax (k' + 1) (by omega) le_rfl
      unfold lastOccAux
      rw [hj]
      exact ih (by omega) (fun j h1 h2 => hmax j h1 (by omega))

theorem lastOcc_eq (pat s : PyStr) (m : Nat) (hm : occursAt pat s m = true)
    (hle : m ≤ s.length)
    (hmax : ∀ j, m < j → j ≤ s.length → occursAt pat s j = false) :
    lastOcc pat s = some m :=
  lastOccAux_eq pat s m hm s.length hle hmax

theorem hasSub2_append (p q : Char) (a b : PyStr)
    (ha : hasSub [p, q] a = false) (hb : hasSub [p, q] b = false)
    (hbd : ¬(a.getLast? = some p ∧ b.head? = some q)) :
    hasSub [p, q] (a ++ b) = false := by
  induction a with
  | nil => exact hb
  | cons c a' ih =>
    cases a' with
    | nil =>
      show hasSub [p, q] (c :: b) = false
      unfold hasSub
      rw [hb]
      simp only [Bool.or_false]
      cases b with
      | nil => simp [List.isPrefixOf]
      | cons d b' =>
        simp only [List.isPrefixOf, Bool.and_eq_false_iff]
        by_cases hpc : p = c
        · right
          subst hpc
          by_cases hqd : q = d
          · exact absurd ⟨rfl, by rw [hqd]; rfl⟩ hbd
          · simp [hqd]
        · left
          simpa using hpc
    | cons c2 a'' =>
      show hasSub [p, q] (c :: c2 :: (a'' ++ b)) = false
      unfold hasSub
      have ih' := ih (hasSub_tail ha) (by simpa using hbd)
      rw [List.cons_append] at ih'
      rw [ih']
      simp only [Bool.or_false]
      unfold hasSub at ha
      rcases Bool.or_eq_false_iff.mp ha with ⟨ha1, _⟩
      have heq : [p, q].isPrefixOf (c :: c2 :: (a'' ++ b))
          = [p, q].isPrefixOf (c :: c2 :: a'') := by
        simp [List.isPrefixOf]
      rw [heq]
      exact ha1

theorem passThrough {p : Char} {pr rep : PyStr} {a : PyStr}
    (h : ∀ ch ∈ a, ch ≠ p) (x : PyStr) :
    replaceAll (p :: pr) rep (a ++ x) = a ++ replaceAll (p :: pr) rep x := by
  induction a with
  | nil => rfl
  | cons ch a' ih =>
    rw [List.cons_append, replaceAll_cons_neg _ _ _ _ _ (by
      simp only [List.isPrefixOf, Bool.and_eq_false_iff, beq_eq_false_iff_ne]
      left
      exact fun hc => h ch (by simp) hc.symm)]
    rw [ih (fun c hc => h c (by simp [hc]))]
    rfl

/-! ## Escape substitutions as character maps -/

theorem replaceAll_single (p : Char) (rep : PyStr) (s : PyStr) :
    replaceAll [p] rep s = s.flatMap (fun c => if c = p then rep else [c]) := by
  induction s with
  | nil => rw [replaceAll_nil]; rfl
  | cons c s' ih =>
    by_cases h : c = p
    · subst h
      rw [replaceAll_cons_pos c [] rep c s' (by simp [List.isPrefixOf])]
      simp only [List.length_nil, List.drop_zero, List.flatMap_cons, ih]
      simp
    · rw [replaceAll_cons_neg p [] rep c s'
        (by simp only [List.isPrefixOf, Bool.and_eq_false_iff, beq_eq_false_iff_ne]
            left
            exact fun hc => h hc.symm)]
      simp only [List.flatMap_cons, if_neg h, ih, List.singleton_append]

theorem esc_id {s : PyStr} (h : '[' ∉ s) :
    replaceAll ['['] (strL "[\"[\"]") s = s := by
  rw [replaceAll_single]
  induction s with
  | nil => rfl
  | cons c s' ih =>
    rw [List.flatMap_cons, if_neg (by intro hc; exact h (by simp [hc]))]
    rw [ih (by intro hm; exact h (by simp [hm]))]
    rfl

/-- The combined character-level escape map of the description encoding. -/
def escCh (c : Char) : PyStr :=
  if c = '\n' then ['%', '_'] else if c = '[' then ['[', '"', '[', '"', ']'] else [c]

/-- The bracket-only escape map, which is what is left after the newline
    markers are decoded again. -/
def escBrCh (c : Char) : PyStr :=
  if c = '[' then ['[', '"', '[', '"', ']'] else [c]

theorem encode_desc_eq (d : PyStr) :
    replaceAll ['['] (strL "[\"[\"]") (replaceAll ['\n'] (strL "%_") d)
      = d.flatMap escCh := by
  rw [replaceAll_single, replaceAll_single]
  induction d with
  | nil => rfl
  | cons c d' ih =>
    rw [List.flatMap_cons, List.flatMap_cons, List.flatMap_append, ih]
    congr 1
    by_cases h1 : c = '\n'
    · subst h1; rfl
    · by_cases h2 : c = '['
      · subst h2; rfl
      · simp only [escCh, if_neg h1, if_neg h2, List.flatMap_cons, if_neg h2,
          List.flatMap_nil, List.append_nil]

theorem prefix_q_flatMap (q : Char) (hq1 : q ≠ '%') (hq2 : q ≠ '[') (d : PyStr)
    (hd : ([q] : PyStr).isPrefixOf d = false) :
    ([q] : PyStr).isPrefixOf (d.flatMap escCh) = false := by
  cases d with
  | nil => rfl
  | cons r u =>
    rw [List.flatMap_cons]
    by_cases h1 : r = '\n'
    · subst h1
      show ([q] : PyStr).isPrefixOf ('%' :: ('_' :: u.flatMap escCh)) = false
      simp only [List.isPrefixOf, Bool.and_eq_false_iff, beq_eq_false_iff_ne]
      left
      exact hq1
    · by_cases h2 : r = '['
      · subst h2
        show ([q] : PyStr).isPrefixOf
          ('[' :: ('"' :: '[' :: '"' :: ']' :: u.flatMap escCh)) = false
        simp only [List.isPrefixOf, Bool.and_eq_false_iff, beq_eq_false_iff_ne]
        left
        exact hq2
      · have hc : escCh r = [r] := by simp [escCh, h1, h2]
        rw [hc, List.singleton_append]
        simp only [List.isPrefixOf, Bool.and_eq_false_iff, beq_eq_false_iff_ne]
        left
        simp only [List.isPrefixOf, Bool.and_eq_false_iff, beq_eq_false_iff_ne] at hd
        rcases hd with h | h
        · exact h
        · simp at h

theorem hasSub_cons_eq (pat : PyStr) (c : Char) (s : PyStr) :
    hasSub pat (c :: s) = (pat.isPrefixOf (c :: s) || hasSub pat s) := rfl

theorem hasSub_append_left_clean (p : Char) (pr a x : PyStr)
    (h : ∀ ch ∈ a, ch ≠ p) :
    hasSub (p :: pr) (a ++ x) = hasSub (p :: pr) x := by
  induction a with
  | nil => rfl
  | cons ch a' ih =>
    rw [List.cons_append, hasSub_cons_eq, ih (fun c hc => h c (by simp [hc]))]
    rw [show (p :: pr).isPrefixOf (ch :: (a' ++ x)) = false from by
      simp only [List.isPrefixOf, Bool.and_eq_false_iff, beq_eq_false_iff_ne]
      left
      exact fun hc => h ch (by simp) hc.symm]
    simp

/-- The newline decode: replacing the percent-underscore markers back by
    newlines in an encoded description yields the bracket-only encoding. -/
theorem unescNL_flatMap (d : PyStr) (hd : hasSub ['%', '_'] d = false) :
    replaceAll ['%', '_'] ['\n'] (d.flatMap escCh) = d.flatMap escBrCh := by
  induction d with
  | nil => rfl
  | cons c d' ih =>
    have hd' : hasSub ['%', '_'] d' = false := hasSub_tail hd
    rw [List.flatMap_cons, List.flatMap_cons]
    by_cases h1 : c = '\n'
    · subst h1
      show replaceAll ('%' :: ['_']) ['\n'] ('%' :: ('_' :: d'.flatMap escCh))
        = escBrCh '\n' ++ d'.flatMap escBrCh
      rw [replaceAll_cons_pos '%' ['_'] ['\n'] '%' ('_' :: d'.flatMap escCh)
        (by simp [List.isPrefixOf])]
      simp only [List.length_cons, List.length_nil, List.drop_succ_cons, List.drop_zero]
      rw [ih hd']
      rfl
    · by_cases h2 : c = '['
      · subst h2
        show replaceAll ('%' :: ['_']) ['\n']
            (['[', '"', '[', '"', ']'] ++ d'.flatMap escCh)
          = escBrCh '[' ++ d'.flatMap escBrCh
        rw [passThrough (by decide) (d'.flatMap escCh), ih hd']
        rfl
      · have hc : escCh c = [c] := by simp [escCh, h1, h2]
        rw [hc, List.singleton_append]
        by_cases h3 : c = '%'
        · subst h3
          have hq : (['_'] : PyStr).isPrefixOf d' = false := by
            rw [hasSub_cons_eq] at hd
            rcases Bool.or_eq_false_iff.mp hd with ⟨hd1, _⟩
            simpa [List.isPrefixOf] using hd1
          rw [show replaceAll ['%', '_'] ['\n'] ('%' :: d'.flatMap escCh)
              = '%' :: replaceAll ['%', '_'] ['\n'] (d'.flatMap escCh) from
            replaceAll_cons_neg '%' ['_'] ['\n'] '%' (d'.flatMap escCh)
              (by
                simp only [List.isPrefixOf, Bool.and_eq_false_iff]
                right
                exact prefix_q_flatMap '_' (by decide) (by decide) d' hq)]
          rw [ih hd']
          rfl
        · rw [show replaceAll ['%', '_'] ['\n'] (c :: d'.flatMap escCh)
              = c :: replaceAll ['%', '_'] ['\n'] (d'.flatMap escCh) from
            replaceAll_cons_neg '%' ['_'] ['\n'] c (d'.flatMap escCh)
              (by
                simp only [List.isPrefixOf, Bool.and_eq_false_iff, beq_eq_false_iff_ne]
                left
                exact fun hc3 => h3 hc3.symm)]
          rw [ih hd']
          simp [escBrCh, h2]

/-- The bracket decode is the exact inverse of the bracket-only encoding. -/
theorem unescBr_flatMap (d : PyStr) :
    replaceAll ['[', '"', '[', '"', ']'] ['['] (d.flatMap escBrCh) = d := by
  induction d with
  | nil => rfl
  | cons c d' ih =>
    rw [List.flatMap_cons]
    by_cases h : c = '['
    · subst h
      show replaceAll ('[' :: ['"', '[', '"', ']']) ['[']
          ('[' :: ('"' :: '[' :: '"' :: ']' :: d'.flatMap escBrCh)) = '[' :: d'
      rw [replaceAll_cons_pos '[' ['"', '[', '"', ']'] ['['] '['
        ('"' :: '[' :: '"' :: ']' :: d'.flatMap escBrCh)
        (by simp [List.isPrefixOf])]
      show '[' :: replaceAll ['[', '"', '[', '"', ']'] ['[']
          (List.drop 4 ('"' :: '[' :: '"' :: ']' :: d'.flatMap escBrCh)) = '[' :: d'
      simp only [List.drop_succ_cons, List.drop_zero]
      rw [ih]
    · have hc : escBrCh c = [c] := by simp [escBrCh, h]
      rw [hc, List.singleton_append]
      rw [show replaceAll ['[', '"', '[', '"', ']'] ['['] (c :: d'.flatMap escBrCh)
          = c :: replaceAll ['[', '"', '[', '"', ']'] ['['] (d'.flatMap escBrCh) from
        replaceAll_cons_neg '[' ['"', '[', '"', ']'] ['['] c (d'.flatMap escBrCh)
          (by
            simp only [List.isPrefixOf, Bool.and_eq_false_iff, beq_eq_false_iff_ne]
            left
            exact fun hcontra => h hcontra.symm)]
      rw [ih]

/-- No percent-quote pair appears in an encoded description whose source
    contains neither a percent-quote nor a percent-underscore pair. -/
theorem noPctQuote_flatMap (d : PyStr) (h1 : hasSub ['%', '"'] d = false)
    (h2 : hasSub ['%', '_'] d = false) :
    hasSub ['%', '"'] (d.flatMap escCh) = false := by
  induction d with
  | nil => rfl
  | cons c d' ih =>
    have ihd := ih (hasSub_tail h1) (hasSub_tail h2)
    rw [List.flatMap_cons]
    by_cases hc1 : c = '\n'
    · subst hc1
      show hasSub ['%', '"'] ('%' :: ('_' :: d'.flatMap escCh)) = false
      rw [hasSub_cons_eq, hasSub_cons_eq, ihd]
      simp [List.isPrefixOf]
    · by_cases hc2 : c = '['
      · subst hc2
        show hasSub ['%', '"'] (['[', '"', '[', '"', ']'] ++ d'.flatMap escCh) = false
        rw [hasSub_append_left_clean '%' ['"'] ['[', '"', '[', '"', ']'] _ (by decide)]
        exact ihd
      · have hc : escCh c = [c] := by simp [escCh, hc1, hc2]
        rw [hc, List.singleton_append, hasSub_cons_eq, ihd]
        simp only [Bool.or_false]
        by_cases hc3 : c = '%'
        · subst hc3
          have hq : (['"'] : PyStr).isPrefixOf d' = false := by
            rw [hasSub_cons_eq] at h1
            rcases Bool.or_eq_false_iff.mp h1 with ⟨ha, _⟩
            simpa [List.isPrefixOf] using ha
          simp only [List.isPrefixOf, Bool.and_eq_false_iff]
          right
          exact prefix_q_flatMap '"' (by decide) (by decide) d' hq
        · simp only [List.isPrefixOf, Bool.and_eq_false_iff, beq_eq_false_iff_ne]
          left
          exact fun hcontra => hc3 hcontra.symm

/-- Witness for C10 on a two-line file. -/
theorem claim_c10_zero_addresses_last_witness :
    remove true ((natToStr 0 ++ '-' :: sha1hex (strL "REM b\n")) ++ '@' :: strL "h")
        [strL "REM a\n", strL "REM b\n"]
        = ⟨[strL "REM a\n", strL "REM b\n"].dropLast, true, false, false⟩ ∧
    replace true ((natToStr 0 ++ '-' :: sha1hex (strL "REM b\n")) ++ '@' :: strL "h")
        (strL "n\n") [strL "REM a\n", strL "REM b\n"]
        = ⟨[strL "REM a\n", strL "REM b\n"].set 1 (strL "n\n"), true, false, false⟩ :=
  claim_c10_zero_addresses_last (strL "h") (strL "n\n") (strL "REM b\n")
    [strL "REM a\n", strL "REM b\n"] (by decide)


/-! ## The message round trip (C3) -/

/-- Modelled from the spec: the expansion collaborator delivers, as the
    free-text message of an occurrence record, the portion of the reminder
    command between the description delimiters when a delimiter pair is
    present, and everything after the MSG keyword and its following space
    otherwise. -/
def collabMsg (s : PyStr) : PyStr :=
  match firstOcc (strL "%\"") s, lastOcc (strL "%\"") s with
  | some i, some j => (s.take j).drop (i + 2)
  | _, _ => s.drop 4

theorem drop_len_add (a b : PyStr) (k : Nat) :
    (a ++ b).drop (a.length + k) = b.drop k := by
  induction a with
  | nil => simp
  | cons c a' ih =>
    show List.drop (a'.length + 1 + k) (c :: (a' ++ b)) = _
    rw [Nat.add_right_comm, List.drop_succ_cons]
    exact ih

theorem take_len_append (a b : PyStr) : (a ++ b).take a.length = a := by
  induction a with
  | nil => rfl
  | cons c a' ih => simp [ih]

theorem isPrefixOf_cons_ne {p : Char} (pr : PyStr) {c : Char} (s : PyStr) (h : p ≠ c) :
    List.isPrefixOf (p :: pr) (c :: s) = false := by
  simp only [List.isPrefixOf, Bool.and_eq_false_iff, beq_eq_false_iff_ne]
  left
  exact h

theorem collabMsg_clean (body : PyStr) (h : hasSub ['%', '"'] body = false) :
    collabMsg ('M' :: 'S' :: 'G' :: ' ' :: body) = body := by
  have hall : hasSub (strL "%\"") ('M' :: 'S' :: 'G' :: ' ' :: body) = false := by
    rw [show strL "%\"" = ['%', '"'] from rfl]
    rw [show ('M' :: 'S' :: 'G' :: ' ' :: body) = ['M', 'S', 'G', ' '] ++ body from rfl,
      hasSub_append_left_clean '%' ['"'] ['M', 'S', 'G', ' '] body (by decide)]
    exact h
  have hf : firstOcc (strL "%\"") ('M' :: 'S' :: 'G' :: ' ' :: body) = none :=
    firstOcc_of_none hall
  unfold collabMsg
  rw [hf]
  cases lastOcc (strL "%\"") ('M' :: 'S' :: 'G' :: ' ' :: body) <;> rfl

theorem lastOcc_enc (body dd : PyStr) (hdd : hasSub ['%', '"'] dd = false) :
    lastOcc (strL "%\"")
      ('M' :: 'S' :: 'G' :: ' ' :: '%' :: '"' :: (body ++ '%' :: '"' :: ' ' :: dd))
      = some (6 + body.length) := by
  have hlen : (['M', 'S', 'G', ' ', '%', '"'] ++ body).length = 6 + body.length := by
    simp only [List.length_append, List.length_cons, List.length_nil]
  have hdropk : ∀ k, List.drop (6 + body.length + k)
      ((['M', 'S', 'G', ' ', '%', '"'] ++ body) ++ ('%' :: '"' :: ' ' :: dd))
      = List.drop k ('%' :: '"' :: ' ' :: dd) := by
    intro k
    rw [← hlen, drop_len_add]
  rw [show strL "%\"" = ['%', '"'] from rfl]
  rw [show ('M' :: 'S' :: 'G' :: ' ' :: '%' :: '"' :: (body ++ '%' :: '"' :: ' ' :: dd))
      = (['M', 'S', 'G', ' ', '%', '"'] ++ body) ++ ('%' :: '"' :: ' ' :: dd) from rfl]
  apply lastOcc_eq
  · unfold occursAt
    rw [show 6 + body.length = 6 + body.length + 0 from rfl, hdropk 0]
    show List.isPrefixOf ['%', '"'] ('%' :: '"' :: ' ' :: dd) = true
    simp only [List.isPrefixOf, beq_self_eq_true, Bool.true_and, Bool.and_true]
  · simp only [List.length_append, List.length_cons, List.length_nil]
    omega
  · intro j hj1 hj2
    obtain ⟨k, rfl⟩ : ∃ k, j = 6 + body.length + (k + 1) :=
      ⟨j - (6 + body.length) - 1, by omega⟩
    unfold occursAt
    rw [hdropk (k + 1)]
    rcases k with _ | _ | _ | m
    · show List.isPrefixOf ['%', '"'] ('"' :: ' ' :: dd) = false
      exact isPrefixOf_cons_ne _ _ (by decide)
    · show List.isPrefixOf ['%', '"'] (' ' :: dd) = false
      exact isPrefixOf_cons_ne _ _ (by decide)
    · show List.isPrefixOf ['%', '"'] dd = false
      have := hasSub_false_drop hdd 0
      simpa using this
    · show List.isPrefixOf ['%', '"'] (List.drop (m + 1) dd) = false
      exact hasSub_false_drop hdd (m + 1)

theorem collabMsg_delim (body dd : PyStr) (hdd : hasSub ['%', '"'] dd = false) :
    collabMsg ('M' :: 'S' :: 'G' :: ' ' :: '%' :: '"' :: (body ++ '%' :: '"' :: ' ' :: dd))
      = body := by
  have hf : firstOcc (strL "%\"")
      ('M' :: 'S' :: 'G' :: ' ' :: '%' :: '"' :: (body ++ '%' :: '"' :: ' ' :: dd))
      = some 4 := by
    rw [show strL "%\"" = ['%', '"'] from rfl]
    apply firstOcc_eq
    · show List.isPrefixOf ['%', '"'] ('%' :: '"' :: (body ++ '%' :: '"' :: ' ' :: dd)) = true
      simp only [List.isPrefixOf, beq_self_eq_true, Bool.true_and, Bool.and_true]
    · intro j hj
      interval_cases j <;> exact isPrefixOf_cons_ne _ _ (by decide)
  have hl := lastOcc_enc body dd hdd
  unfold collabMsg
  rw [hf, hl]
  show (List.take (6 + body.length)
      ('M' :: 'S' :: 'G' :: ' ' :: '%' :: '"' :: (body ++ '%' :: '"' :: ' ' :: dd))).drop (4 + 2)
      = body
  have etake : List.take (6 + body.length)
      ('M' :: 'S' :: 'G' :: ' ' :: '%' :: '"' :: (body ++ '%' :: '"' :: ' ' :: dd))
      = 'M' :: 'S' :: 'G' :: ' ' :: '%' :: '"' :: body := by
    rw [show ('M' :: 'S' :: 'G' :: ' ' :: '%' :: '"' :: (body ++ '%' :: '"' :: ' ' :: dd))
        = (['M', 'S', 'G', ' ', '%', '"'] ++ body) ++ ('%' :: '"' :: ' ' :: dd) from rfl]
    rw [show 6 + body.length = (['M', 'S', 'G', ' ', '%', '"'] ++ body).length from by
        simp only [List.length_append, List.length_cons, List.length_nil],
      take_len_append]
    rfl
  rw [etake]
  rfl

theorem decode_clean (t : PyStr) (h : hasSub ['%', '"'] t = false) :
    decodeDescription t = none := by
  unfold decodeDescription
  rw [show strL "%\"" = ['%', '"'] from rfl, h]
  rfl

theorem gen_description_eval (t : PyStr) (m : Nat)
    (hl : lastOcc (strL "%\"") t = some m) :
    gen_description t = pyStrip (replaceAll (strL "[\"[\"]") ['[']
      (replaceAll (strL "%_") ['\n'] (List.drop (m + 3) t))) := by
  simp only [gen_description, hl]
  rw [show (((m : Nat) : Int) + 3).toNat = m + 3 from by omega]

theorem decode_delim (body d : PyStr) (hd2 : hasSub ['%', '"'] d = false)
    (hd3 : hasSub ['%', '_'] d = false) (hd4 : pyStrip d = d) :
    decodeDescription
      ('M' :: 'S' :: 'G' :: ' ' :: '%' :: '"' ::
        (body ++ '%' :: '"' :: ' ' :: d.flatMap escCh))
      = some d := by
  have hdd : hasSub ['%', '"'] (d.flatMap escCh) = false := noPctQuote_flatMap d hd2 hd3
  have hsub : hasSub (strL "%\"")
      ('M' :: 'S' :: 'G' :: ' ' :: '%' :: '"' ::
        (body ++ '%' :: '"' :: ' ' :: d.flatMap escCh)) = true := by
    rw [show strL "%\"" = ['%', '"'] from rfl]
    exact hasSub_mid ['%', '"'] ['M', 'S', 'G', ' ']
      (body ++ '%' :: '"' :: ' ' :: d.flatMap escCh)
  have hdrop : List.drop (6 + body.length + 3)
      ('M' :: 'S' :: 'G' :: ' ' :: '%' :: '"' ::
        (body ++ '%' :: '"' :: ' ' :: d.flatMap escCh))
      = d.flatMap escCh := by
    rw [show ('M' :: 'S' :: 'G' :: ' ' :: '%' :: '"' ::
        (body ++ '%' :: '"' :: ' ' :: d.flatMap escCh))
        = (['M', 'S', 'G', ' ', '%', '"'] : PyStr) ++
          (body ++ '%' :: '"' :: ' ' :: d.flatMap escCh) from rfl]
    rw [show 6 + body.length + 3
        = (['M', 'S', 'G', ' ', '%', '"'] : PyStr).length + (body.length + 3) from by
      simp only [List.length_cons, List.length_nil]
      omega]
    rw [drop_len_add]
    rw [drop_len_add body ('%' :: '"' :: ' ' :: d.flatMap escCh) 3]
    rfl
  unfold decodeDescription
  rw [hsub]
  rw [if_pos rfl]
  rw [gen_description_eval _ (6 + body.length) (lastOcc_enc body (d.flatMap escCh) hdd)]
  rw [hdrop]
  rw [show strL "%_" = ['%', '_'] from rfl,
    show strL "[\"[\"]" = ['[', '"', '[', '"', ']'] from rfl]
  rw [unescNL_flatMap d hd3, unescBr_flatMap d, hd4]

theorem splitLocation_no_sep (s : PyStr) (h : hasSub [' ', 'a', 't', ' '] s = false) :
    splitLocation s = (s, none) := by
  unfold splitLocation
  rw [show strL " at " = [' ', 'a', 't', ' '] from rfl, h]
  rfl

theorem splitLocation_at (summary l : PyStr)
    (hl1 : hasSub [' ', 'a', 't', ' '] l = false)
    (hl2 : List.isPrefixOf ['a', 't', ' '] l = false) :
    splitLocation (summary ++ ' ' :: 'a' :: 't' :: ' ' :: l) = (summary, some l) := by
  have hsub : hasSub (strL " at ") (summary ++ ' ' :: 'a' :: 't' :: ' ' :: l) = true := by
    rw [show strL " at " = [' ', 'a', 't', ' '] from rfl]
    show hasSub [' ', 'a', 't', ' '] (summary ++ ([' ', 'a', 't', ' '] ++ l)) = true
    rw [← List.append_assoc]
    exact hasSub_mid [' ', 'a', 't', ' '] summary l
  have hocc : occursAt [' ', 'a', 't', ' ']
      (summary ++ ' ' :: 'a' :: 't' :: ' ' :: l) summary.length = true := by
    unfold occursAt
    rw [show summary.length = summary.length + 0 from rfl,
      drop_len_add summary (' ' :: 'a' :: 't' :: ' ' :: l) 0]
    show List.isPrefixOf [' ', 'a', 't', ' '] (' ' :: 'a' :: 't' :: ' ' :: l) = true
    simp only [List.isPrefixOf, beq_self_eq_true, Bool.true_and, Bool.and_true]
  have hlast : lastOcc (strL " at ") (summary ++ ' ' :: 'a' :: 't' :: ' ' :: l)
      = some summary.length := by
    rw [show strL " at " = [' ', 'a', 't', ' '] from rfl]
    apply lastOcc_eq
    · exact hocc
    · simp only [List.length_append, List.length_cons]
      omega
    · intro j hj1 hj2
      obtain ⟨k, rfl⟩ : ∃ k, j = summary.length + (k + 1) :=
        ⟨j - summary.length - 1, by omega⟩
      unfold occursAt
      rw [drop_len_add summary (' ' :: 'a' :: 't' :: ' ' :: l) (k + 1)]
      rcases k with _ | _ | _ | m
      · show List.isPrefixOf [' ', 'a', 't', ' '] ('a' :: 't' :: ' ' :: l) = false
        exact isPrefixOf_cons_ne _ _ (by decide)
      · show List.isPrefixOf [' ', 'a', 't', ' '] ('t' :: ' ' :: l) = false
        exact isPrefixOf_cons_ne _ _ (by decide)
      · show List.isPrefixOf [' ', 'a', 't', ' '] (' ' :: l) = false
        simp only [List.isPrefixOf, beq_self_eq_true, Bool.true_and]
        exact hl2
      · show List.isPrefixOf [' ', 'a', 't', ' '] (List.drop m l) = false
        exact hasSub_false_drop hl1 m
  unfold splitLocation
  rw [hsub, hlast]
  show ((summary ++ ' ' :: 'a' :: 't' :: ' ' :: l).take summary.length,
      some ((summary ++ ' ' :: 'a' :: 't' :: ' ' :: l).drop (summary.length + 4)))
      = (summary, some l)
  rw [take_len_append, drop_len_add summary (' ' :: 'a' :: 't' :: ' ' :: l) 4]
  rfl

theorem gen_msg_loc (summary l : PyStr) (hl : l ≠ []) :
    joinSep [' '] (gen_msg none summary (some l) none)
      = 'M' :: 'S' :: 'G' :: ' ' ::
        (replaceAll ['['] (strL "[\"[\"]") summary ++ ' ' :: 'a' :: 't' :: ' ' :: l) := by
  have e : gen_msg none summary (some l) none
      = [strL "MSG", joinSep [' ']
          [replaceAll ['['] (strL "[\"[\"]") summary, strL "at " ++ l]] := by
    simp only [gen_msg]
    rw [if_pos hl]
    rfl
  rw [e]
  show 'M' :: 'S' :: 'G' :: ' ' ::
      ((replaceAll ['['] (strL "[\"[\"]") summary ++ [' ']) ++ ('a' :: 't' :: ' ' :: l)) = _
  rw [List.append_assoc]
  rfl

theorem gen_msg_desc_noloc (summary d : PyStr) (hd : d ≠ []) :
    joinSep [' '] (gen_msg none summary none (some d))
      = 'M' :: 'S' :: 'G' :: ' ' :: '%' :: '"' ::
        (replaceAll ['['] (strL "[\"[\"]") summary ++ '%' :: '"' :: ' ' ::
          replaceAll ['['] (strL "[\"[\"]") (replaceAll ['\n'] (strL "%_") d)) := by
  have e : gen_msg none summary none (some d)
      = [strL "MSG",
         strL "%\"" ++ joinSep [' '] [replaceAll ['['] (strL "[\"[\"]") summary]
           ++ strL "%\"",
         replaceAll ['['] (strL "[\"[\"]") (replaceAll ['\n'] (strL "%_") d)] := by
    simp only [gen_msg]
    rw [if_pos hd]
    rfl
  rw [e]
  show 'M' :: 'S' :: 'G' :: ' ' :: '%' :: '"' ::
      (((replaceAll ['['] (strL "[\"[\"]") summary ++ ['%', '"']) ++ [' ']) ++
        replaceAll ['['] (strL "[\"[\"]") (replaceAll ['\n'] (strL "%_") d)) = _
  rw [List.append_assoc, List.append_assoc]
  rfl

theorem gen_msg_desc_loc (summary l d : PyStr) (hl : l ≠ []) (hd : d ≠ []) :
    joinSep [' '] (gen_msg none summary (some l) (some d))
      = 'M' :: 'S' :: 'G' :: ' ' :: '%' :: '"' ::
        ((replaceAll ['['] (strL "[\"[\"]") summary ++ ' ' :: 'a' :: 't' :: ' ' :: l) ++
          '%' :: '"' :: ' ' ::
          replaceAll ['['] (strL "[\"[\"]") (replaceAll ['\n'] (strL "%_") d)) := by
  have e : gen_msg none summary (some l) (some d)
      = [strL "MSG",
         strL "%\"" ++ joinSep [' ']
           [replaceAll ['['] (strL "[\"[\"]") summary, strL "at " ++ l] ++ strL "%\"",
         replaceAll ['['] (strL "[\"[\"]") (replaceAll ['\n'] (strL "%_") d)] := by
    simp only [gen_msg]
    rw [if_pos hl, if_pos hd]
    rfl
  rw [e]
  show 'M' :: 'S' :: 'G' :: ' ' :: '%' :: '"' ::
      (((((replaceAll ['['] (strL "[\"[\"]") summary ++ [' ']) ++ ('a' :: 't' :: ' ' :: l))
          ++ ['%', '"']) ++ [' ']) ++
        replaceAll ['['] (strL "[\"[\"]") (replaceAll ['\n'] (strL "%_") d)) = _
  simp only [List.append_assoc, List.cons_append, List.singleton_append, List.nil_append]


/-- C3 counterexample: for the summary "a[b" (no label, no location, no
    description) the encoded message decodes to a summary still carrying the
    three-character bracket escape, because the parser never reverses the
    bracket substitution on the summary line.  This refutes the spec's claim
    that the round trip recovers every summary containing literal brackets. -/
theorem claim_c3_counterexample :
    (splitLocation (collabMsg (joinSep [' ']
      (gen_msg none (strL "a[b") none none)))).1 ≠ strL "a[b" := by
  decide

/-- C3 (corrected): the encode/decode round trip of the message text does
    recover the summary, the location and the description exactly, provided
    the label is absent, the summary contains no literal bracket and no
    percent-quote marker, the summary contains no ' at ' separator when no
    location is given, the location (when given) is non-empty, contains no
    ' at ', does not begin with 'at ' and contains no percent-quote marker,
    and the description (when given) is non-empty, contains neither a
    percent-quote nor a percent-underscore marker, and is unchanged by
    stripping.  Brackets and embedded newlines in the description are fine. -/
theorem claim_c3_amended (label : Option PyStr) (summary : PyStr)
    (location description : Option PyStr)
    (hlab : label = none)
    (hs1 : '[' ∉ summary)
    (hs2 : hasSub ['%', '"'] summary = false)
    (hs3 : location = none → hasSub [' ', 'a', 't', ' '] summary = false)
    (hloc : ∀ l, location = some l → l ≠ [] ∧ hasSub [' ', 'a', 't', ' '] l = false ∧
        List.isPrefixOf ['a', 't', ' '] l = false ∧ hasSub ['%', '"'] l = false)
    (hdesc : ∀ d, description = some d → d ≠ [] ∧ hasSub ['%', '"'] d = false ∧
        hasSub ['%', '_'] d = false ∧ pyStrip d = d) :
    splitLocation (collabMsg (joinSep [' '] (gen_msg label summary location description)))
        = (summary, location) ∧
    decodeDescription (joinSep [' '] (gen_msg label summary location description))
        = description := by
  subst hlab
  rcases location with _ | l
  · rcases description with _ | d
    · rw [show joinSep [' '] (gen_msg none summary none none)
          = 'M' :: 'S' :: 'G' :: ' ' :: replaceAll ['['] (strL "[\"[\"]") summary from rfl,
        esc_id hs1]
      refine ⟨?_, ?_⟩
      · rw [collabMsg_clean summary hs2]
        exact splitLocation_no_sep summary (hs3 rfl)
      · apply decode_clean
        rw [show ('M' :: 'S' :: 'G' :: ' ' :: summary : PyStr)
            = ['M', 'S', 'G', ' '] ++ summary from rfl,
          hasSub_append_left_clean '%' ['"'] ['M', 'S', 'G', ' '] summary (by decide)]
        exact hs2
    · obtain ⟨hd1, hd2, hd3, hd4⟩ := hdesc d rfl
      rw [gen_msg_desc_noloc summary d hd1, esc_id hs1, encode_desc_eq d]
      refine ⟨?_, ?_⟩
      · rw [collabMsg_delim summary (d.flatMap escCh) (noPctQuote_flatMap d hd2 hd3)]
        exact splitLocation_no_sep summary (hs3 rfl)
      · exact decode_delim summary d hd2 hd3 hd4
  · obtain ⟨hl1, hl2, hl3, hl4⟩ := hloc l rfl
    have hbody : hasSub ['%', '"'] (summary ++ ' ' :: 'a' :: 't' :: ' ' :: l) = false := by
      apply hasSub2_append '%' '"' summary (' ' :: 'a' :: 't' :: ' ' :: l) hs2
      · rw [hasSub_cons_eq, hasSub_cons_eq, hasSub_cons_eq, hasSub_cons_eq, hl4,
          isPrefixOf_cons_ne _ _ (by decide), isPrefixOf_cons_ne _ _ (by decide),
          isPrefixOf_cons_ne _ _ (by decide), isPrefixOf_cons_ne _ _ (by decide)]
        rfl
      · simp
    rcases description with _ | d
    · rw [gen_msg_loc summary l hl1, esc_id hs1]
      refine ⟨?_, ?_⟩
      · rw [collabMsg_clean _ hbody]
        exact splitLocation_at summary l hl2 hl3
      · apply decode_clean
        rw [show ('M' :: 'S' :: 'G' :: ' ' :: (summary ++ ' ' :: 'a' :: 't' :: ' ' :: l) : PyStr)
            = ['M', 'S', 'G', ' '] ++ (summary ++ ' ' :: 'a' :: 't' :: ' ' :: l) from rfl,
          hasSub_append_left_clean '%' ['"'] ['M', 'S', 'G', ' '] _ (by decide)]
        exact hbody
    · obtain ⟨hd1, hd2, hd3, hd4⟩ := hdesc d rfl
      rw [gen_msg_desc_loc summary l d hl1 hd1, esc_id hs1, encode_desc_eq d]
      refine ⟨?_, ?_⟩
      · rw [collabMsg_delim _ (d.flatMap escCh) (noPctQuote_flatMap d hd2 hd3)]
        exact splitLocation_at summary l hl2 hl3
      · exact decode_delim _ d hd2 hd3 hd4

/-- Witness for C3 on a concrete event with a location and a description
    containing literal brackets and an embedded newline. -/
theorem claim_c3_amended_witness :
    splitLocation (collabMsg (joinSep [' '] (gen_msg none (strL "Party")
        (some (strL "Home")) (some (strL "bring [gifts]\nand cake")))))
      = (strL "Party", some (strL "Home")) ∧
    decodeDescription (joinSep [' '] (gen_msg none (strL "Party")
        (some (strL "Home")) (some (strL "bring [gifts]\nand cake"))))
      = some (strL "bring [gifts]\nand cake") :=
  claim_c3_amended none (strL "Party") (some (strL "Home"))
    (some (strL "bring [gifts]\nand cake")) rfl (by decide) (by decide) (by simp)
    (fun l hl => by
      injection hl with h
      subst h
      exact ⟨by decide, by decide, by decide, by decide⟩)
    (fun d hd => by
      injection hd with h
      subst h
      exact ⟨by decide, by decide, by decide, by decide⟩)

end PyRemind
